import Mathlib

/-!
# huaweicloud-prometheus-discovery: the discovery-to-target-group transformation

A shallow embedding of `main.go`.

* The loosely typed `interface{}` data decoded from the compute API is the
  inductive type `Value`; a Go `map[string]interface{}` is an association list,
  and for `Server.Addresses` the order of the list is the order in which the
  `range` loop visits the pools.
* `getSimpleTags` works on `[]*PrometheusInfo`.  Pointers are kept: the
  `PrometheusInfo` objects live in a heap (a list, a pointer is an index into
  it), `pis` is a list of pointers, and the document that is marshalled is the
  list of dereferenced pointers.
* `getModelLabelsTags` builds `model.LabelSet` maps, which are reference types
  in Go; they live in a heap of their own and `tg.Targets` is a list of
  references.
* Output written with `fmt.Println` (the anomaly log) is not part of the model.
* The closure `work` runs on explicit file state; what the collaborators outside
  `main.go` do in one cycle (client set-up, `ServersList`, `json.MarshalIndent`,
  `ioutil.WriteFile`) is an environment of outcomes.
-/

namespace Discovery

/-! ## Loosely typed input -/

/-- A decoded JSON value, the dynamic content of a Go `interface{}`. -/
inductive Value where
  | null : Value
  | bool : Bool → Value
  | num : Int → Value
  | str : String → Value
  | arr : List Value → Value
  | obj : List (String × Value) → Value

/-- The fields of `servers.Server` that `main.go` reads. -/
structure Server where
  ID : String
  Status : String
  Name : String
  TenantID : String
  UserID : String
  Flavor : List (String × Value)
  Addresses : List (String × Value)

/-- Indexing `m[key]` of a `map[string]interface{}`: the nil interface when the key is absent. -/
def mapIndex (m : List (String × Value)) (key : String) : Value :=
  match m.lookup key with
  | some v => v
  | none => Value.null

/-- The checked type assertion `v.(string)`. -/
def asString : Value → Option String
  | Value.str s => some s
  | _ => none

/-- The checked type assertion `v.([]interface{})`. -/
def asArray : Value → Option (List Value)
  | Value.arr xs => some xs
  | _ => none

/-- The checked type assertion `v.(map[string]interface{})`. -/
def asDict : Value → Option (List (String × Value))
  | Value.obj kvs => some kvs
  | _ => none

/-- The address of an entry when it is a mapping with a string `addr`. -/
def entryAddr (e : Value) : Option String :=
  match asDict e with
  | none => none
  | some md1 => asString (mapIndex md1 "addr")

/-- Go's `net.JoinHostPort`: a host that contains a colon is put in brackets. -/
def joinHostPort (host port : String) : String :=
  if ':' ∈ host.toList then "[" ++ host ++ "]:" ++ port else host ++ ":" ++ port

/-- The call `fmt.Sprintf("%s", *port)` on the string flag `port`: the string itself. -/
def sprintfS (port : String) : String := port

/-! ## `fmt.Sprintf(format)` without operands

`getModelLabelsTags` calls `fmt.Sprintf("OS_" + *region)`: the region is part of
the format string and there is no operand.  What follows is `doPrintf` of Go's
`fmt` package for an empty operand list (`len(a) = 0`, so `argNum` stays `0`).
The format is a list of characters; a position `i` of the Go code is the suffix
that starts there. -/

/-- The function `tooLarge` of `fmt`. -/
def tooLarge (x : Nat) : Bool := decide (x > 1000000)

/-- The loop of `parsenum` over the window `s[start:end]`; `wlen` is the length
of the window, the result is `(num, isnum, newi - start)`. -/
def parsenumLoop (wlen : Nat) : List Char → Nat → Bool → Nat → Nat × Bool × Nat
  | [], num, isnum, newi => (num, isnum, newi)
  | c :: cs, num, isnum, newi =>
    if '0' ≤ c ∧ c ≤ '9' then
      if tooLarge num then (0, false, wlen)
      else parsenumLoop wlen cs (num * 10 + (c.toNat - '0'.toNat)) true (newi + 1)
    else (num, isnum, newi)

/-- The call `parsenum(s, start, end)` on the window `w = s[start:end]`. -/
def parsenum (w : List Char) : Nat × Bool × Nat :=
  if w.length = 0 then (0, false, 0) else parsenumLoop w.length w 0 false 0

/-- Length in bytes of the UTF-8 encoding, Go's `len` of a string. -/
def utf8Len (f : List Char) : Nat := (f.map Char.utf8Size).sum

/-- The call `parseArgNumber(format[i:])`: `(index, wid, ok)`, `wid` counted in characters. -/
def parseArgNumber (f : List Char) : Int × Nat × Bool :=
  if utf8Len f < 3 then (0, 1, false)
  else
    let w := f.tail.takeWhile (fun c => c != ']')
    if f.tail.length ≤ w.length then (0, 1, false)
    else
      match parsenum w with
      | (width, ok, newi) =>
        if !ok || newi != w.length then (0, w.length + 2, false)
        else ((width : Int) - 1, w.length + 2, true)

/-- The call `p.argNumber(argNum, format, i, 0)`: the new position, `found`, and `p.goodArgNum`. -/
def argNumber (f : List Char) (goodArgNum : Bool) : List Char × Bool × Bool :=
  match f with
  | '[' :: _ =>
    match parseArgNumber f with
    | (index, wid, ok) =>
      if ok ∧ 0 ≤ index ∧ index < 0 then (f.drop wid, true, goodArgNum)
      else (f.drop wid, ok, false)
  | _ => (f, false, goodArgNum)

/-- The flag characters skipped by the `simpleFormat` loop. -/
def isFlagChar (c : Char) : Bool :=
  c == '#' || c == '0' || c == '+' || c == '-' || c == ' '

/-- One verb of `doPrintf`, from the character after `%`: the text written and
the position after the verb, `none` when the loop is left at the end of the
format.  A `.` starts a precision only when a character follows it
(`i+1 < end && format[i] == '.'`); as the last character it is the verb. -/
def doVerb (f0 : List Char) : List Char × Option (List Char) :=
  let f1 := f0.dropWhile isFlagChar
  match argNumber f1 true with
  | (f2, afterIndex2, good2) =>
    let wd : List Char × Bool × Bool × List Char :=
      match f2 with
      | '*' :: f => (f, false, good2, "%!(BADWIDTH)".toList)
      | _ =>
        match parsenum f2 with
        | (_, widPresent, k) =>
          (f2.drop k, afterIndex2, if afterIndex2 && widPresent then false else good2, [])
    match wd with
    | (f3, afterIndex3, good3, out3) =>
      let pr : List Char × Bool × Bool × List Char :=
        match f3 with
        | '.' :: c :: f =>
          match argNumber (c :: f) (if afterIndex3 then false else good3) with
          | (f', afterIndex', good') =>
            match f' with
            | '*' :: f'' => (f'', false, good', out3 ++ "%!(BADPREC)".toList)
            | _ =>
              match parsenum f' with
              | (_, _, k) => (f'.drop k, afterIndex', good', out3)
        | _ => (f3, afterIndex3, good3, out3)
      match pr with
      | (f4, afterIndex4, good4, out4) =>
        let fin : List Char × Bool × Bool :=
          if !afterIndex4 then argNumber f4 good4 else (f4, afterIndex4, good4)
        match fin with
        | (f5, _, good5) =>
          match f5 with
          | [] => (out4 ++ "%!(NOVERB)".toList, none)
          | verb :: f6 =>
            if verb = '%' then (out4 ++ ['%'], some f6)
            else if !good5 then (out4 ++ "%!".toList ++ [verb] ++ "(BADINDEX)".toList, some f6)
            else (out4 ++ "%!".toList ++ [verb] ++ "(MISSING)".toList, some f6)

/-- The format loop of `doPrintf`.  `skip` is the number of characters that the
last verb has already consumed: the index `i` is ahead of the character read. -/
def doPrintf : Nat → List Char → List Char
  | _, [] => []
  | skip + 1, _ :: cs => doPrintf skip cs
  | 0, c :: cs =>
    if c = '%' then
      match doVerb cs with
      | (out, none) => out
      | (out, some rest) => out ++ doPrintf (cs.length - rest.length) cs
    else c :: doPrintf 0 cs

/-- The call `fmt.Sprintf(format)` with no operand. -/
def Sprintf (format : String) : String := String.mk (doPrintf 0 format.toList)

/-! ## Simple mode -/

/-- The struct `Labels`. -/
structure Labels where
  Name : String
deriving DecidableEq, Repr

/-- The struct `PrometheusInfo`. -/
structure PrometheusInfo where
  Targets : List String
  Labels : Labels
deriving DecidableEq, Repr

instance : Inhabited PrometheusInfo := ⟨⟨[], ⟨""⟩⟩⟩

/-- The allocated `PrometheusInfo` objects; a `*PrometheusInfo` is an index. -/
abbrev PiHeap := List PrometheusInfo

/-- Dereference `*pi`. -/
def deref (h : PiHeap) (pi : Nat) : PrometheusInfo := h.getD pi default

/-- The statement `pi.Targets = append(pi.Targets, addr)` through the pointer `pi`. -/
def appendTarget (h : PiHeap) (pi : Nat) (addr : String) : PiHeap :=
  h.set pi { Targets := (deref h pi).Targets ++ [addr], Labels := (deref h pi).Labels }

/-- The function `getPi`: the first group of `pis` with the name, or a pointer
to a fresh object that is not in `pis`. -/
def getPi (h : PiHeap) (pis : List Nat) (serverName : String) : PiHeap × Nat × Bool :=
  match pis.find? (fun pi => decide ((deref h pi).Labels.Name = serverName)) with
  | some pi => (h, pi, true)
  | none => (h ++ [{ Targets := [], Labels := { Name := serverName } }], h.length, false)

/-- The body of `for _, address := range md` in `getSimpleTags`. -/
def simpleEntry (port : String) (pi : Nat) (h : PiHeap) (address : Value) : PiHeap :=
  match asDict address with
  | none => h
  | some md1 =>
    match asString (mapIndex md1 "addr") with
    | none => h
    | some addr => appendTarget h pi (joinHostPort addr (sprintfS port))

/-- The body of `for _, address := range server.Addresses` in `getSimpleTags`. -/
def simplePool (port : String) (pi : Nat) (isSame : Bool) (st : PiHeap × List Nat)
    (address : Value) : PiHeap × List Nat :=
  match asArray address with
  | none => st
  | some md =>
    if md.length = 0 then st
    else
      let h := md.foldl (simpleEntry port pi) st.1
      if isSame = false then (h, st.2 ++ [pi]) else (h, st.2)

/-- The body of `for _, server := range allServers` in `getSimpleTags`. -/
def simpleServer (port : String) (st : PiHeap × List Nat) (server : Server) :
    PiHeap × List Nat :=
  match getPi st.1 st.2 server.Name with
  | (h, pi, isSame) =>
    server.Addresses.foldl (fun st kv => simplePool port pi isSame st kv.2) (h, st.2)

/-- What `getSimpleTags` returns: the slice of pointers, the heap they point into, the error. -/
structure SimpleResult where
  heap : PiHeap
  pis : List Nat
  err : Option String

/-- The function `getSimpleTags`; `none` is the run-time panic of `allServers[0]`. -/
def getSimpleTags (port : String) (allServers : List Server) : Option SimpleResult :=
  match allServers[0]? with
  | none => none
  | some s0 =>
    let st := allServers.foldl (simpleServer port)
      ([{ Targets := [], Labels := { Name := s0.Name } }], [0])
    some { heap := st.1, pis := st.2, err := none }

/-- The document that is marshalled: every pointer of the slice dereferenced. -/
def SimpleResult.document (r : SimpleResult) : List PrometheusInfo :=
  r.pis.map (deref r.heap)

/-- Specification side: the entries of one pool that are mappings with a string
`addr`, in order; none when the pool is not a sequence. -/
def poolAddrs (pool : Value) : List String :=
  match asArray pool with
  | none => []
  | some md => md.filterMap entryAddr

/-- Specification side: the well-formed address entries of a server, pool by
pool in the order in which the pools are visited. -/
def wellFormedAddrs (server : Server) : List String :=
  server.Addresses.flatMap (fun kv => poolAddrs kv.2)

/-! ## Model mode -/

/-- The constant `model.MetaLabelPrefix` of `prometheus/common`. -/
def MetaLabelPrefix : String := "__meta_"

/-- The constant `model.AddressLabel` of `prometheus/common`. -/
def AddressLabel : String := "__address__"

def huaweicloudLabelPrefix : String := MetaLabelPrefix ++ "huaweicloud_"
def huaweicloudLabelAddressPool : String := huaweicloudLabelPrefix ++ "address_pool"
def huaweicloudLabelInstanceFlavor : String := huaweicloudLabelPrefix ++ "instance_flavor"
def huaweicloudLabelInstanceID : String := huaweicloudLabelPrefix ++ "instance_id"
def huaweicloudLabelInstanceName : String := huaweicloudLabelPrefix ++ "instance_name"
def huaweicloudLabelInstanceStatus : String := huaweicloudLabelPrefix ++ "instance_status"
def huaweicloudLabelPrivateIP : String := huaweicloudLabelPrefix ++ "private_ip"
def huaweicloudLabelProjectID : String := huaweicloudLabelPrefix ++ "project_id"
def huaweicloudLabelUserID : String := huaweicloudLabelPrefix ++ "user_id"

/-- A `model.LabelSet`, a `map[LabelName]LabelValue`, as an association list
with one entry per key. -/
abbrev LabelSet := List (String × String)

/-- The assignment `m[k] = v` on the content of a map. -/
def setLabel : LabelSet → String → String → LabelSet
  | [], k, v => [(k, v)]
  | (k', v') :: m, k, v => if k' = k then (k', v) :: m else (k', v') :: setLabel m k v

/-- The allocated maps; a `model.LabelSet` variable holds an index. -/
abbrev LabelHeap := List LabelSet

/-- The content of the map behind a reference. -/
def readLabels (h : LabelHeap) (r : Nat) : LabelSet := h.getD r []

/-- The assignment `m[k] = v` through the reference `m`. -/
def writeLabel (h : LabelHeap) (m : Nat) (k v : String) : LabelHeap :=
  h.set m (setLabel (readLabels h m) k v)

/-- The conversion `model.LabelValue(pool)` of an `int` to a string type: the
UTF-8 text of the code point with that number, U+FFFD outside the range of valid
code points. -/
def intToString (n : Nat) : String :=
  if n < 0xD800 ∨ (0xDFFF < n ∧ n < 0x110000) then String.singleton (Char.ofNat n)
  else String.singleton (Char.ofNat 0xFFFD)

/-- The struct `targetgroup.Group`, its `Targets` as references to the maps. -/
structure Group where
  Targets : List Nat
  Labels : LabelSet
  Source : String

/-- The body of `for pool, address := range md` in `getModelLabelsTags`; `pool`
is the index of the entry in the slice `md`. -/
def modelEntry (port : String) (labels : Nat) (st : LabelHeap × List Nat) (pool : Nat)
    (address : Value) : LabelHeap × List Nat :=
  match asDict address with
  | none => st
  | some md1 =>
    match asString (mapIndex md1 "addr") with
    | none => st
    | some addr =>
      let lbls := st.1.length
      let h0 : LabelHeap := st.1 ++ [[]]
      let h1 := (readLabels h0 labels).foldl (fun h kv => writeLabel h lbls kv.1 kv.2) h0
      let h2 := writeLabel h1 lbls huaweicloudLabelAddressPool (intToString pool)
      let h3 := writeLabel h2 lbls huaweicloudLabelPrivateIP addr
      let h4 := writeLabel h3 lbls AddressLabel (joinHostPort addr (sprintfS port))
      (h4, st.2 ++ [lbls])

/-- The loop `for pool, address := range md`, from index `pool` on. -/
def modelEntries (port : String) (labels : Nat) :
    Nat → List Value → LabelHeap × List Nat → LabelHeap × List Nat
  | _, [], st => st
  | pool, address :: md, st =>
    modelEntries port labels (pool + 1) md (modelEntry port labels st pool address)

/-- The body of `for _, address := range server.Addresses` in `getModelLabelsTags`. -/
def modelPool (port : String) (labels : Nat) (st : LabelHeap × List Nat) (address : Value) :
    LabelHeap × List Nat :=
  match asArray address with
  | none => st
  | some md =>
    if md.length = 0 then st
    else modelEntries port labels 0 md st

/-- The body of `for _, server := range allServers` in `getModelLabelsTags`. -/
def modelServer (port : String) (st : LabelHeap × List Nat) (server : Server) :
    LabelHeap × List Nat :=
  let labels := st.1.length
  let h0 : LabelHeap := st.1 ++ [[
    (huaweicloudLabelInstanceID, server.ID),
    (huaweicloudLabelInstanceStatus, server.Status),
    (huaweicloudLabelInstanceName, server.Name),
    (huaweicloudLabelProjectID, server.TenantID),
    (huaweicloudLabelUserID, server.UserID)]]
  match asString (mapIndex server.Flavor "id") with
  | none => (h0, st.2)
  | some id =>
    let h1 := writeLabel h0 labels huaweicloudLabelInstanceFlavor id
    server.Addresses.foldl (fun st kv => modelPool port labels st kv.2) (h1, st.2)

/-- What `getModelLabelsTags` returns: the slice of groups, the heap of the maps, the error. -/
structure ModelResult where
  heap : LabelHeap
  groups : List Group
  err : Option String

/-- The function `getModelLabelsTags`. -/
def getModelLabelsTags (port region : String) (allServers : List Server) : ModelResult :=
  let st := allServers.foldl (modelServer port) ([], [])
  { heap := st.1,
    groups := [{ Targets := st.2, Labels := [], Source := Sprintf ("OS_" ++ region) }],
    err := none }

/-- The label sets of a group as they are marshalled: every reference read. -/
def ModelResult.targets (r : ModelResult) (g : Group) : List LabelSet :=
  g.Targets.map (readLabels r.heap)

/-- Specification side: the label set that `getModelLabelsTags` builds for the
entry at index `pool` of a pool, with address `addr`, of `server` with flavor
id `id`. -/
def targetLabels (port : String) (server : Server) (id : String) (pool : Nat) (addr : String) :
    LabelSet :=
  [ (huaweicloudLabelInstanceID, server.ID),
    (huaweicloudLabelInstanceStatus, server.Status),
    (huaweicloudLabelInstanceName, server.Name),
    (huaweicloudLabelProjectID, server.TenantID),
    (huaweicloudLabelUserID, server.UserID),
    (huaweicloudLabelInstanceFlavor, id),
    (huaweicloudLabelAddressPool, intToString pool),
    (huaweicloudLabelPrivateIP, addr),
    (AddressLabel, joinHostPort addr port) ]

/-- Specification side: the well-formed entries of a slice with their indices,
from index `pool` on. -/
def indexedAddrs : Nat → List Value → List (Nat × String)
  | _, [] => []
  | pool, e :: md =>
    match entryAddr e with
    | none => indexedAddrs (pool + 1) md
    | some addr => (pool, addr) :: indexedAddrs (pool + 1) md

/-- Specification side: the well-formed entries of a server, each with its pool
name, its index in the pool and its address. -/
def serverEntries (server : Server) : List (String × Nat × String) :=
  server.Addresses.flatMap (fun kv =>
    match asArray kv.2 with
    | none => []
    | some md => (indexedAddrs 0 md).map (fun ia => (kv.1, ia.1, ia.2)))

/-- Specification side: the label sets of one server in model mode, none without
a string flavor id. -/
def serverTargets (port : String) (server : Server) : List LabelSet :=
  match asString (mapIndex server.Flavor "id") with
  | none => []
  | some id => (serverEntries server).map (fun e => targetLabels port server id e.2.1 e.2.2)

/-! ## The scheduling loop of `main` -/

/-- Go's `int` arithmetic wraps around; the two's complement value of `x` in 64 bits. -/
def wrapInt (x : Int) : Int := (x + 2 ^ 63) % 2 ^ 64 - 2 ^ 63

/-- The loop `for { select {...}; work(); n = n - 1; if *times > 0 && n == 0 { break } }`.
`work` is the effect of one call of the closure on the state of the world (a
call is taken to return, and the wait in `select` to end), the last component
counts the calls, and `none` means that the loop is still running after `fuel`
iterations. -/
def mainLoop {σ : Type} (work : σ → σ) (times : Int) : Nat → Int → σ → Nat → Option (σ × Nat)
  | 0, _, _, _ => none
  | fuel + 1, n, w, calls =>
    let w1 := work w
    let n1 := wrapInt (n - 1)
    if times > 0 ∧ n1 = 0 then some (w1, calls + 1)
    else mainLoop work times fuel n1 w1 (calls + 1)

/-! ## Configuration, one cycle of `work`, and `main` -/

/-- The command-line flags of `main.go`, as parsed by `flag.Parse`; `interval`
is the scrape interval in nanoseconds. -/
structure Flags where
  outFile : String
  interval : Int
  times : Int
  projectName : String
  userName : String
  accessKey : String
  secretKey : String
  domain : String
  region : String
  password : String
  port : String
  isHuaweicloudModule : Bool

/-- The function `checkConfigOptions`; `none` is the nil error. -/
def checkConfigOptions (flags : Flags) : Option String :=
  if flags.region = "" then some "The config.region should be set."
  else if flags.projectName = "" then some "The config.projectName should be set."
  else if flags.domain = "" then some "The config.domains should be set."
  else if flags.userName = "" then some "The config.userName should be set."
  else none

/-- The files of the machine: the content at every path, `none` where there is no file. -/
abbrev Files := String → Option String

/-- The document handed to `json.MarshalIndent`: the dereferenced groups of
simple mode, or the groups of model mode with their label sets read. -/
inductive Document where
  | simple : List PrometheusInfo → Document
  | model : List (String × LabelSet × List LabelSet) → Document

/-- What the collaborators outside `main.go` do during one call of `work`:
the error of `openstack.NewClient` or `openstack.Authenticate` in `genClient`,
the error of `openstack.NewComputeV2`, the result of `ServersList`, the result
of `json.MarshalIndent`, and, when `ioutil.WriteFile` fails, its error and the
files it leaves. -/
structure CycleEnv where
  genClient : Option String
  newComputeV2 : Option String
  serversList : Except String (List Server)
  marshalIndent : Document → Except String String
  writeFails : Option (String × Files)

/-- The function `buildClient` on the `Config` that `initClient` fills from the
flags (`UserID` stays empty): the error it returns. -/
def buildClient (flags : Flags) (env : CycleEnv) : Option String :=
  if flags.accessKey ≠ "" ∧ flags.secretKey ≠ "" then env.genClient
  else if flags.password ≠ "" ∧ (flags.userName ≠ "" ∨ "" ≠ "") then env.genClient
  else some "Must config token or aksk or username password to be authorized"

/-- The function `initClient`: the error it returns, `none` when it returns a client. -/
def initClient (flags : Flags) (env : CycleEnv) : Option String :=
  match buildClient flags env with
  | some err => some err
  | none =>
    match env.newComputeV2 with
    | some clientErr => some clientErr
    | none => none

/-- The call `ioutil.WriteFile(path, m, 0644)`: on success the content at `path` is `m`. -/
def writeFile (env : CycleEnv) (path m : String) (fs : Files) : Files × Option String :=
  match env.writeFails with
  | none => (fun p => if p = path then some m else fs p, none)
  | some (err, left) => (left, some err)

/-- The closure `work` of `main`: the files after the call; `none` is a run-time panic. -/
def work (flags : Flags) (env : CycleEnv) (fs : Files) : Option Files :=
  match initClient flags env with
  | some _ => some fs
  | none =>
    match env.serversList with
    | Except.error _ => some fs
    | Except.ok allServers =>
      if allServers.length = 0 then some fs
      else if flags.isHuaweicloudModule = true then
        let r := getModelLabelsTags flags.port flags.region allServers
        match r.err with
        | some _ => some fs
        | none =>
          match env.marshalIndent
            (Document.model (r.groups.map (fun g => (g.Source, g.Labels, r.targets g)))) with
          | Except.error _ => some fs
          | Except.ok m => some (writeFile env flags.outFile m fs).1
      else
        match getSimpleTags flags.port allServers with
        | none => none
        | some r =>
          match env.marshalIndent (Document.simple r.document) with
          | Except.error _ => some fs
          | Except.ok m => some (writeFile env flags.outFile m fs).1

/-- The function `main` after `flag.Parse`: it returns at once, without a call
of `work`, when `checkConfigOptions` returns an error; otherwise it creates the
timer and the ticker, where `time.NewTicker(*interval)` panics for an interval
that is not positive, and runs the scheduling loop.  `Except.error` is the
panic, `Except.ok` holds the result of the loop as for `mainLoop`. -/
def main {σ : Type} (flags : Flags) (work : σ → σ) (fuel : Nat) (w : σ) :
    Except String (Option (σ × Nat)) :=
  match checkConfigOptions flags with
  | some _ => Except.ok (some (w, 0))
  | none =>
    if flags.interval ≤ 0 then Except.error "non-positive interval for NewTicker"
    else Except.ok (mainLoop work flags.times fuel flags.times w 0)

/-! ## Definitions used to state and prove the properties -/

/-- Several `append`s to `pi.Targets` through the pointer `pi` at once. -/
def appendTargets (h : PiHeap) (pi : Nat) (l : List String) : PiHeap :=
  h.set pi { Targets := (deref h pi).Targets ++ l, Labels := (deref h pi).Labels }

/-- A pool that reaches the inner loop: a sequence that is not empty. -/
def passing (v : Value) : Bool :=
  match asArray v with
  | none => false
  | some md => decide (md.length ≠ 0)

/-- The targets that one server contributes in simple mode. -/
def simpleTargets (port : String) (s : Server) : List String :=
  (wellFormedAddrs s).map (fun a => joinHostPort a port)

/-- The invariant of the server loop of `getSimpleTags` after the servers `done`. -/
structure SimpleInv (port : String) (h : PiHeap) (pis : List Nat) (done : List Server) : Prop where
  valid : ∀ p ∈ pis, p < h.length
  inj : ∀ p ∈ pis, ∀ q ∈ pis, (deref h p).Labels.Name = (deref h q).Labels.Name → p = q
  targets : ∀ p ∈ pis, (deref h p).Targets =
    (done.filter (fun s => decide (s.Name = (deref h p).Labels.Name))).flatMap (simpleTargets port)
  absent : ∀ s ∈ done, (∀ p ∈ pis, (deref h p).Labels.Name ≠ s.Name) → simpleTargets port s = []

/-- Two servers: `a` without pools, then `b` with two pools of one address each. -/
def inventoryTwoPools : List Server :=
  [ { ID := "1", Status := "ACTIVE", Name := "a", TenantID := "t", UserID := "u",
      Flavor := [("id", Value.str "s3.small")], Addresses := [] },
    { ID := "2", Status := "ACTIVE", Name := "b", TenantID := "t", UserID := "u",
      Flavor := [("id", Value.str "s3.small")],
      Addresses := [("public", Value.arr [Value.obj [("addr", Value.str "10.0.0.1")]]),
                    ("private", Value.arr [Value.obj [("addr", Value.str "10.0.0.2")]])] } ]

/-- Two servers: `a` with one address, then `b` whose only pool is empty. -/
def inventoryEmptyPool : List Server :=
  [ { ID := "1", Status := "ACTIVE", Name := "a", TenantID := "t", UserID := "u",
      Flavor := [("id", Value.str "s3.small")],
      Addresses := [("public", Value.arr [Value.obj [("addr", Value.str "10.0.0.1")]])] },
    { ID := "2", Status := "ACTIVE", Name := "b", TenantID := "t", UserID := "u",
      Flavor := [("id", Value.str "s3.small")],
      Addresses := [("public", Value.arr [])] } ]

/-- Two servers with the same name `a` and one address each. -/
def inventorySameName : List Server :=
  [ { ID := "1", Status := "ACTIVE", Name := "a", TenantID := "t", UserID := "u",
      Flavor := [("id", Value.str "s3.small")],
      Addresses := [("public", Value.arr [Value.obj [("addr", Value.str "10.0.0.1")]])] },
    { ID := "2", Status := "ACTIVE", Name := "a", TenantID := "t", UserID := "u",
      Flavor := [("id", Value.str "s3.small")],
      Addresses := [("public", Value.arr [Value.obj [("addr", Value.str "10.0.0.2")]])] } ]

/-- The map built for one entry from the content `base` of `labels`. -/
def entryLabels (port : String) (base : LabelSet) (pool : Nat) (addr : String) : LabelSet :=
  setLabel (setLabel (setLabel (base.foldl (fun m kv => setLabel m kv.1 kv.2) [])
    huaweicloudLabelAddressPool (intToString pool)) huaweicloudLabelPrivateIP addr)
    AddressLabel (joinHostPort addr port)

/-- The maps that one pool adds for a server whose `labels` map has content `base`. -/
def poolLabels (port : String) (base : LabelSet) (v : Value) : List LabelSet :=
  match asArray v with
  | none => []
  | some md => (indexedAddrs 0 md).map (fun ia => entryLabels port base ia.1 ia.2)

/-- A server with a well-formed flavor and the pool `public` holding one address. -/
def serverPublic : Server :=
  { ID := "1", Status := "ACTIVE", Name := "a", TenantID := "t", UserID := "u",
    Flavor := [("id", Value.str "s3.small")],
    Addresses := [("public", Value.arr [Value.obj [("addr", Value.str "10.0.0.1")]])] }

/-- A server whose flavor mapping has no `id`, with one valid address. -/
def serverNoFlavor : Server :=
  { ID := "2", Status := "ACTIVE", Name := "b", TenantID := "t", UserID := "u",
    Flavor := [],
    Addresses := [("public", Value.arr [Value.obj [("addr", Value.str "10.0.0.2")]])] }

/-- Four servers: `a`, then `b` without pools, then `c` with one address, then
`b` again with one address. -/
def inventoryLateGroup : List Server :=
  [ { ID := "1", Status := "ACTIVE", Name := "a", TenantID := "t", UserID := "u",
      Flavor := [("id", Value.str "s3.small")],
      Addresses := [("public", Value.arr [Value.obj [("addr", Value.str "10.0.0.1")]])] },
    { ID := "2", Status := "ACTIVE", Name := "b", TenantID := "t", UserID := "u",
      Flavor := [("id", Value.str "s3.small")], Addresses := [] },
    { ID := "3", Status := "ACTIVE", Name := "c", TenantID := "t", UserID := "u",
      Flavor := [("id", Value.str "s3.small")],
      Addresses := [("public", Value.arr [Value.obj [("addr", Value.str "10.0.0.3")]])] },
    { ID := "4", Status := "ACTIVE", Name := "b", TenantID := "t", UserID := "u",
      Flavor := [("id", Value.str "s3.small")],
      Addresses := [("public", Value.arr [Value.obj [("addr", Value.str "10.0.0.2")]])] } ]

/-- A server whose flavor and address data have every malformed shape: a flavor
`id` that is not a string, a pool that is not a sequence, an empty pool, an
entry that is not a mapping, an entry without `addr`, an `addr` that is not a
string; one entry is well formed. -/
def serverMalformed : Server :=
  { ID := "1", Status := "ACTIVE", Name := "a", TenantID := "t", UserID := "u",
    Flavor := [("id", Value.num 7)],
    Addresses :=
      [ ("p1", Value.str "10.0.0.1"),
        ("p2", Value.arr []),
        ("p3", Value.arr [ Value.str "10.0.0.2", Value.obj [("version", Value.num 4)],
                           Value.obj [("addr", Value.num 3)],
                           Value.obj [("addr", Value.str "10.0.0.3")] ]),
        ("p4", Value.null) ] }

/-- Flags without credentials: the four identity settings are set, the access
key, the secret key and the password are empty. -/
def flagsNoCredentials : Flags :=
  { outFile := "ecs_file_sd.yml", interval := 60000000000, times := 0,
    projectName := "p", userName := "u", accessKey := "", secretKey := "", domain := "d",
    region := "cn-north-1", password := "", port := "9100", isHuaweicloudModule := false }

/-- A cycle in which every collaborator succeeds and the inventory is `serverPublic`. -/
def envAllGood : CycleEnv :=
  { genClient := none, newComputeV2 := none, serversList := Except.ok [serverPublic],
    marshalIndent := fun _ => Except.ok "[]", writeFails := none }

/-- Two records of one server that differ in the order of the pools only: the
two orders in which the `range` loop may visit `Addresses`. -/
def PoolsReordered (s t : Server) : Prop :=
  s.ID = t.ID ∧ s.Status = t.Status ∧ s.Name = t.Name ∧ s.TenantID = t.TenantID ∧
    s.UserID = t.UserID ∧ s.Flavor = t.Flavor ∧ s.Addresses.Perm t.Addresses

/-- Two runs of the server loop of `getSimpleTags` that agree up to the order of
the targets: the same pointers, and behind every pointer the same name and
targets that are permutations of each other. -/
structure SimpleRel (h1 : PiHeap) (pis1 : List Nat) (h2 : PiHeap) (pis2 : List Nat) : Prop where
  pis : pis1 = pis2
  len : h1.length = h2.length
  valid : ∀ p ∈ pis1, p < h1.length
  labels : ∀ q, (deref h1 q).Labels = (deref h2 q).Labels
  targets : ∀ q, (deref h1 q).Targets.Perm (deref h2 q).Targets

/-- The inventory `inventoryTwoPools` with the pools of `b` visited in the other order. -/
def inventoryTwoPoolsSwapped : List Server :=
  [ { ID := "1", Status := "ACTIVE", Name := "a", TenantID := "t", UserID := "u",
      Flavor := [("id", Value.str "s3.small")], Addresses := [] },
    { ID := "2", Status := "ACTIVE", Name := "b", TenantID := "t", UserID := "u",
      Flavor := [("id", Value.str "s3.small")],
      Addresses := [("private", Value.arr [Value.obj [("addr", Value.str "10.0.0.2")]]),
                    ("public", Value.arr [Value.obj [("addr", Value.str "10.0.0.1")]])] } ]

/-- A server with an IPv4 address in one pool and an IPv6 address in another. -/
def serverTwoFamilies : Server :=
  { ID := "1", Status := "ACTIVE", Name := "a", TenantID := "t", UserID := "u",
    Flavor := [("id", Value.str "s3.small")],
    Addresses := [("public", Value.arr [Value.obj [("addr", Value.str "10.0.0.1")]]),
                  ("v6", Value.arr [Value.obj [("addr", Value.str "fe80::1")]])] }

/-! ## Lemmas -/

theorem deref_set (h : PiHeap) (pi q : Nat) (x : PrometheusInfo) (hp : pi < h.length) :
    deref (h.set pi x) q = if q = pi then x else deref h q := by
  unfold deref
  rw [List.getD_eq_getElem?_getD, List.getD_eq_getElem?_getD, List.getElem?_set]
  by_cases hq : q = pi
  · subst hq; simp [hp]
  · have : ¬ pi = q := fun e => hq e.symm
    simp [hq, this]

theorem appendTargets_length (h : PiHeap) (pi : Nat) (l : List String) :
    (appendTargets h pi l).length = h.length := by
  simp [appendTargets]

theorem deref_appendTargets (h : PiHeap) (pi q : Nat) (l : List String) (hp : pi < h.length) :
    deref (appendTargets h pi l) q =
      if q = pi then { Targets := (deref h pi).Targets ++ l, Labels := (deref h pi).Labels }
      else deref h q := by
  unfold appendTargets
  exact deref_set h pi q _ hp

theorem appendTargets_nil (h : PiHeap) (pi : Nat) : appendTargets h pi [] = h := by
  unfold appendTargets
  by_cases hp : pi < h.length
  · apply List.ext_getElem?
    intro j
    rw [List.getElem?_set]
    by_cases hj : pi = j
    · subst hj
      simp [hp, deref, List.getD_eq_getElem?_getD, List.getElem?_eq_getElem hp]
    · simp [hj]
  · exact List.set_eq_of_length_le (Nat.le_of_not_lt hp)

theorem appendTargets_append (h : PiHeap) (pi : Nat) (l1 l2 : List String) (hp : pi < h.length) :
    appendTargets (appendTargets h pi l1) pi l2 = appendTargets h pi (l1 ++ l2) := by
  have h1 : deref (h.set pi ⟨(deref h pi).Targets ++ l1, (deref h pi).Labels⟩) pi
      = ⟨(deref h pi).Targets ++ l1, (deref h pi).Labels⟩ := by
    rw [deref_set h pi pi _ hp]; simp
  unfold appendTargets
  rw [h1]
  simp [List.set_set]

theorem simpleEntry_eq (port : String) (pi : Nat) (h : PiHeap) (e : Value) :
    simpleEntry port pi h e =
      appendTargets h pi ((entryAddr e).toList.map (fun a => joinHostPort a port)) := by
  unfold simpleEntry entryAddr
  cases asDict e with
  | none => simp [appendTargets_nil]
  | some md1 =>
    simp only
    cases asString (mapIndex md1 "addr") with
    | none => simp [appendTargets_nil]
    | some addr => simp [appendTarget, appendTargets, sprintfS]

theorem simpleEntries_eq (port : String) (pi : Nat) (md : List Value) :
    ∀ h : PiHeap, pi < h.length →
      md.foldl (simpleEntry port pi) h =
        appendTargets h pi ((md.filterMap entryAddr).map (fun a => joinHostPort a port)) := by
  induction md with
  | nil => intro h _; simp [appendTargets_nil]
  | cons e md ih =>
    intro h hp
    rw [List.foldl_cons, simpleEntry_eq, ih _ (by rw [appendTargets_length]; exact hp),
      appendTargets_append _ _ _ _ hp]
    cases he : entryAddr e <;> simp [List.filterMap_cons, he]

theorem poolAddrs_of_not_passing (v : Value) (h : passing v = false) : poolAddrs v = [] := by
  unfold passing at h
  unfold poolAddrs
  cases hv : asArray v with
  | none => rfl
  | some md =>
    rw [hv] at h
    simp only [ne_eq, decide_not, Bool.not_eq_false', decide_eq_true_eq,
      List.length_eq_zero] at h
    simp [h]

theorem simplePool_eq (port : String) (pi : Nat) (isSame : Bool) (h : PiHeap) (pis : List Nat)
    (v : Value) (hp : pi < h.length) :
    simplePool port pi isSame (h, pis) v =
      (appendTargets h pi ((poolAddrs v).map (fun a => joinHostPort a port)),
        pis ++ List.replicate (if isSame = false ∧ passing v = true then 1 else 0) pi) := by
  unfold simplePool poolAddrs passing
  cases hv : asArray v with
  | none => simp [appendTargets_nil]
  | some md =>
    by_cases hmd : md.length = 0
    · have : md = [] := List.length_eq_zero.mp hmd
      subst this
      simp [appendTargets_nil]
    · simp only [hmd, if_false]
      rw [simpleEntries_eq port pi md h hp]
      cases isSame <;> simp [hmd]

/-- The pool loop of `getSimpleTags` for one server: the well-formed addresses
of the server go to `pi`, and a pointer that `getPi` did not find is appended to
`pis` once for every pool that is a non-empty sequence. -/
theorem simplePools_eq (port : String) (pi : Nat) (isSame : Bool)
    (pools : List (String × Value)) :
    ∀ (h : PiHeap) (pis : List Nat), pi < h.length →
      pools.foldl (fun st kv => simplePool port pi isSame st kv.2) (h, pis) =
        (appendTargets h pi
            ((pools.flatMap (fun kv => poolAddrs kv.2)).map (fun a => joinHostPort a port)),
          pis ++ List.replicate
            (if isSame = false then (pools.filter (fun kv => passing kv.2)).length else 0) pi) := by
  induction pools with
  | nil => intro h pis _; simp [appendTargets_nil]
  | cons kv pools ih =>
    intro h pis hp
    rw [List.foldl_cons, simplePool_eq port pi isSame h pis kv.2 hp,
      ih _ _ (by rw [appendTargets_length]; exact hp), appendTargets_append _ _ _ _ hp]
    refine Prod.ext ?_ ?_
    · simp [List.flatMap_cons]
    · cases isSame
      · cases hk : passing kv.2 <;>
          simp [List.filter_cons, hk, List.replicate_succ, List.append_assoc]
      · simp

theorem simpleTargets_of_no_passing (port : String) (s : Server)
    (h : (s.Addresses.filter (fun kv => passing kv.2)).length = 0) : simpleTargets port s = [] := by
  unfold simpleTargets wellFormedAddrs
  have h0 : s.Addresses.filter (fun kv => passing kv.2) = [] := List.length_eq_zero.mp h
  rw [List.filter_eq_nil_iff] at h0
  have : s.Addresses.flatMap (fun kv => poolAddrs kv.2) = [] := by
    rw [List.flatMap_eq_nil_iff]
    intro kv hkv
    apply poolAddrs_of_not_passing
    have := h0 kv hkv
    simpa using this
  rw [this]; rfl

theorem simpleServer_found (port : String) (h : PiHeap) (pis : List Nat) (s : Server) (p : Nat)
    (hf : pis.find? (fun pi => decide ((deref h pi).Labels.Name = s.Name)) = some p)
    (hp : p < h.length) :
    simpleServer port (h, pis) s = (appendTargets h p (simpleTargets port s), pis) := by
  unfold simpleServer getPi
  simp only [hf]
  rw [simplePools_eq port p true s.Addresses h pis hp]
  simp [simpleTargets, wellFormedAddrs]

theorem simpleServer_fresh (port : String) (h : PiHeap) (pis : List Nat) (s : Server)
    (hf : pis.find? (fun pi => decide ((deref h pi).Labels.Name = s.Name)) = none) :
    simpleServer port (h, pis) s =
      (appendTargets (h ++ [{ Targets := [], Labels := { Name := s.Name } }]) h.length
          (simpleTargets port s),
        pis ++ List.replicate (s.Addresses.filter (fun kv => passing kv.2)).length h.length) := by
  unfold simpleServer getPi
  simp only [hf]
  rw [simplePools_eq port h.length false s.Addresses _ pis (by simp)]
  simp [simpleTargets, wellFormedAddrs]

theorem deref_append_left (h : PiHeap) (x : PrometheusInfo) (q : Nat) (hq : q < h.length) :
    deref (h ++ [x]) q = deref h q := by
  unfold deref
  rw [List.getD_eq_getElem?_getD, List.getD_eq_getElem?_getD, List.getElem?_append_left hq]

theorem deref_append_length (h : PiHeap) (x : PrometheusInfo) : deref (h ++ [x]) h.length = x := by
  unfold deref
  rw [List.getD_eq_getElem?_getD]
  simp

theorem flatMap_filter_snoc (port : String) (done : List Server) (s : Server) (n : String) :
    ((done ++ [s]).filter (fun t => decide (t.Name = n))).flatMap (simpleTargets port) =
      (done.filter (fun t => decide (t.Name = n))).flatMap (simpleTargets port) ++
        (if s.Name = n then simpleTargets port s else []) := by
  by_cases hs : s.Name = n <;> simp [List.filter_append, List.filter_cons, hs]

/-- One iteration of the server loop of `getSimpleTags` keeps the invariant. -/
theorem SimpleInv.step (port : String) (h : PiHeap) (pis : List Nat) (done : List Server)
    (s : Server) (inv : SimpleInv port h pis done) :
    SimpleInv port (simpleServer port (h, pis) s).1 (simpleServer port (h, pis) s).2
      (done ++ [s]) := by
  cases hf : pis.find? (fun pi => decide ((deref h pi).Labels.Name = s.Name)) with
  | some p =>
    have hpm : p ∈ pis := List.mem_of_find?_eq_some hf
    have hpn : (deref h p).Labels.Name = s.Name := by
      have := List.find?_some hf; simpa using this
    have hp : p < h.length := inv.valid p hpm
    rw [simpleServer_found port h pis s p hf hp]
    have hname : ∀ q, (deref (appendTargets h p (simpleTargets port s)) q).Labels
        = (deref h q).Labels := by
      intro q
      rw [deref_appendTargets h p q _ hp]
      by_cases hq : q = p
      · subst hq; simp
      · simp [hq]
    refine ⟨?_, ?_, ?_, ?_⟩
    · intro q hq
      show q < (appendTargets h p (simpleTargets port s)).length
      rw [appendTargets_length]; exact inv.valid q hq
    · intro a ha b hb hab
      simp only [hname] at hab
      exact inv.inj a ha b hb hab
    · intro q hq
      simp only [hname]
      rw [flatMap_filter_snoc, deref_appendTargets h p q _ hp]
      by_cases hqp : q = p
      · subst hqp
        simp [hpn, inv.targets q hq]
      · have hne : ¬ s.Name = (deref h q).Labels.Name := by
          intro e
          exact hqp (inv.inj q hq p hpm (by rw [← e, hpn]))
        simp [hqp, hne, inv.targets q hq]
    · intro t ht hno
      simp only [hname] at hno
      rcases List.mem_append.mp ht with ht | ht
      · exact inv.absent t ht hno
      · have : t = s := by simpa using ht
        subst this
        exact absurd hpn (hno p hpm)
  | none =>
    have hno : ∀ q ∈ pis, (deref h q).Labels.Name ≠ s.Name := by
      intro q hq
      have := List.find?_eq_none.mp hf q hq
      simpa using this
    rw [simpleServer_fresh port h pis s hf]
    set x : PrometheusInfo := { Targets := [], Labels := { Name := s.Name } } with hx
    have hlen : h.length < (h ++ [x]).length := by simp
    have hold : ∀ q, q < h.length →
        deref (appendTargets (h ++ [x]) h.length (simpleTargets port s)) q = deref h q := by
      intro q hq
      rw [deref_appendTargets _ _ _ _ hlen, if_neg (Nat.ne_of_lt hq), deref_append_left h x q hq]
    have hnew : deref (appendTargets (h ++ [x]) h.length (simpleTargets port s)) h.length
        = ⟨simpleTargets port s, ⟨s.Name⟩⟩ := by
      rw [deref_appendTargets _ _ _ _ hlen, if_pos rfl, deref_append_length]
      simp [hx]
    have hmem : ∀ q, q ∈ pis ++ List.replicate
        (s.Addresses.filter (fun kv => passing kv.2)).length h.length →
        q ∈ pis ∨ (q = h.length ∧ (s.Addresses.filter (fun kv => passing kv.2)).length ≠ 0) := by
      intro q hq
      rcases List.mem_append.mp hq with hq | hq
      · exact Or.inl hq
      · rw [List.mem_replicate] at hq
        exact Or.inr ⟨hq.2, hq.1⟩
    refine ⟨?_, ?_, ?_, ?_⟩
    · intro q hq
      show q < (appendTargets (h ++ [x]) h.length (simpleTargets port s)).length
      rw [appendTargets_length]
      rcases hmem q hq with hq | ⟨hq, _⟩
      · exact Nat.lt_trans (inv.valid q hq) hlen
      · rw [hq]; exact hlen
    · intro a ha b hb hab
      rcases hmem a ha with ha | ⟨ha, _⟩ <;> rcases hmem b hb with hb | ⟨hb, _⟩
      · rw [hold a (inv.valid a ha), hold b (inv.valid b hb)] at hab
        exact inv.inj a ha b hb hab
      · subst hb
        rw [hold a (inv.valid a ha), hnew] at hab
        exact absurd hab (hno a ha)
      · subst ha
        rw [hold b (inv.valid b hb), hnew] at hab
        exact absurd hab.symm (hno b hb)
      · rw [ha, hb]
    · intro q hq
      show (deref (appendTargets (h ++ [x]) h.length (simpleTargets port s)) q).Targets = _
      rw [flatMap_filter_snoc]
      rcases hmem q hq with hq | ⟨hq, _⟩
      · rw [hold q (inv.valid q hq), if_neg (fun e => hno q hq e.symm), List.append_nil]
        exact inv.targets q hq
      · subst hq
        rw [hnew]
        simp only [if_true]
        have : (done.filter (fun t => decide (t.Name = s.Name))).flatMap (simpleTargets port)
            = [] := by
          rw [List.flatMap_eq_nil_iff]
          intro t ht
          rw [List.mem_filter] at ht
          have htn : t.Name = s.Name := by simpa using ht.2
          apply inv.absent t ht.1
          intro p hp
          rw [htn]; exact hno p hp
        rw [this, List.nil_append]
    · intro t ht hnone
      rcases List.mem_append.mp ht with ht | ht
      · apply inv.absent t ht
        intro p hp
        have := hnone p (List.mem_append_left _ hp)
        change (deref (appendTargets (h ++ [x]) h.length (simpleTargets port s)) p).Labels.Name
          ≠ t.Name at this
        rwa [hold p (inv.valid p hp)] at this
      · have : t = s := by simpa using ht
        subst this
        apply simpleTargets_of_no_passing
        by_contra hk
        have hmemn : h.length ∈ pis ++ List.replicate
            (t.Addresses.filter (fun kv => passing kv.2)).length h.length := by
          apply List.mem_append_right
          rw [List.mem_replicate]
          exact ⟨hk, rfl⟩
        have := hnone _ hmemn
        change (deref (appendTargets (h ++ [x]) h.length (simpleTargets port t)) h.length).Labels.Name
          ≠ t.Name at this
        rw [hnew] at this
        exact this rfl

theorem SimpleInv.fold (port : String) (servers : List Server) :
    ∀ (h : PiHeap) (pis : List Nat) (done : List Server), SimpleInv port h pis done →
      SimpleInv port (servers.foldl (simpleServer port) (h, pis)).1
        (servers.foldl (simpleServer port) (h, pis)).2 (done ++ servers) := by
  induction servers with
  | nil => intro h pis done inv; simpa using inv
  | cons s servers ih =>
    intro h pis done inv
    have hs := SimpleInv.step port h pis done s inv
    have := ih _ _ _ hs
    simpa [List.foldl_cons, List.append_assoc] using this

theorem SimpleInv.init (port : String) (name : String) :
    SimpleInv port [{ Targets := [], Labels := { Name := name } }] [0] [] := by
  refine ⟨?_, ?_, ?_, ?_⟩
  · intro p hp; simp at hp; simp [hp]
  · intro p hp q hq _; simp at hp hq; rw [hp, hq]
  · intro p hp; simp at hp; subst hp; simp [deref]
  · intro s hs; simp at hs

theorem readLabels_append_length (H : LabelHeap) (m : LabelSet) (E : LabelHeap) :
    readLabels (H ++ m :: E) H.length = m := by
  unfold readLabels
  rw [List.getD_eq_getElem?_getD, List.getElem?_append_right (Nat.le_refl _)]
  simp

theorem readLabels_append_left (H E : LabelHeap) (t : Nat) (ht : t < H.length) :
    readLabels (H ++ E) t = readLabels H t := by
  unfold readLabels
  rw [List.getD_eq_getElem?_getD, List.getD_eq_getElem?_getD, List.getElem?_append_left ht]

theorem writeLabel_last (H : LabelHeap) (m : LabelSet) (k v : String) :
    writeLabel (H ++ [m]) H.length k v = H ++ [setLabel m k v] := by
  unfold writeLabel
  rw [readLabels_append_length]
  simp

theorem cloneLoop_eq (H : LabelHeap) (L : LabelSet) :
    ∀ m : LabelSet, L.foldl (fun h kv => writeLabel h H.length kv.1 kv.2) (H ++ [m]) =
      H ++ [L.foldl (fun m kv => setLabel m kv.1 kv.2) m] := by
  induction L with
  | nil => intro m; rfl
  | cons kv L ih =>
    intro m
    rw [List.foldl_cons, writeLabel_last, ih, List.foldl_cons]

theorem modelEntry_eq (port : String) (H0 : LabelHeap) (base : LabelSet) (E : LabelHeap)
    (ts : List Nat) (pool : Nat) (e : Value) :
    modelEntry port H0.length (H0 ++ base :: E, ts) pool e =
      (H0 ++ base :: (E ++ (entryAddr e).toList.map (entryLabels port base pool)),
        ts ++ List.range' (H0.length + 1 + E.length) (entryAddr e).toList.length) := by
  unfold modelEntry entryAddr
  cases asDict e with
  | none => simp
  | some md1 =>
    simp only
    cases asString (mapIndex md1 "addr") with
    | none => simp
    | some addr =>
      have hread : readLabels ((H0 ++ base :: E) ++ [[]]) H0.length = base := by
        rw [List.append_assoc, List.cons_append, readLabels_append_length]
      have hlen : (H0 ++ base :: E).length = H0.length + 1 + E.length := by
        simp; omega
      simp only [hread]
      rw [← hlen]
      generalize hG : H0 ++ base :: E = G
      simp only [cloneLoop_eq, writeLabel_last, sprintfS, Option.toList_some,
        List.map_cons, List.map_nil, List.length_singleton, List.range'_one, entryLabels]
      rw [← hG]
      simp

theorem modelEntries_eq (port : String) (H0 : LabelHeap) (base : LabelSet) (md : List Value) :
    ∀ (pool : Nat) (E : LabelHeap) (ts : List Nat),
      modelEntries port H0.length pool md (H0 ++ base :: E, ts) =
        (H0 ++ base :: (E ++ (indexedAddrs pool md).map
            (fun ia => entryLabels port base ia.1 ia.2)),
          ts ++ List.range' (H0.length + 1 + E.length) (indexedAddrs pool md).length) := by
  induction md with
  | nil => intro pool E ts; simp [modelEntries, indexedAddrs]
  | cons e md ih =>
    intro pool E ts
    rw [modelEntries, modelEntry_eq, ih]
    cases he : entryAddr e with
    | none => simp [indexedAddrs, he]
    | some addr =>
      simp only [indexedAddrs, he, Option.toList_some, List.map_cons, List.map_nil,
        List.length_cons, List.length_nil, List.append_assoc, List.singleton_append,
        List.length_append, List.range'_one]
      refine Prod.ext rfl ?_
      simp only [List.range'_succ, List.cons_append, List.nil_append]
      rfl

theorem modelPool_eq (port : String) (H0 : LabelHeap) (base : LabelSet) (E : LabelHeap)
    (ts : List Nat) (v : Value) :
    modelPool port H0.length (H0 ++ base :: E, ts) v =
      (H0 ++ base :: (E ++ poolLabels port base v),
        ts ++ List.range' (H0.length + 1 + E.length) (poolLabels port base v).length) := by
  unfold modelPool poolLabels
  cases hv : asArray v with
  | none => simp
  | some md =>
    by_cases hmd : md.length = 0
    · have : md = [] := List.length_eq_zero.mp hmd
      subst this
      simp [indexedAddrs]
    · simp only [hmd, if_false]
      rw [modelEntries_eq]
      simp

theorem range'_append_range' (a m n : Nat) :
    List.range' a m ++ List.range' (a + m) n = List.range' a (m + n) := by
  induction m generalizing a with
  | zero => simp
  | succ m ih =>
    rw [List.range'_succ, List.cons_append, Nat.add_right_comm m 1 n, List.range'_succ]
    congr 1
    have := ih (a + 1)
    rw [show a + 1 + m = a + (m + 1) by omega] at this
    exact this

theorem modelPools_eq (port : String) (H0 : LabelHeap) (base : LabelSet)
    (pools : List (String × Value)) :
    ∀ (E : LabelHeap) (ts : List Nat),
      pools.foldl (fun st kv => modelPool port H0.length st kv.2) (H0 ++ base :: E, ts) =
        (H0 ++ base :: (E ++ pools.flatMap (fun kv => poolLabels port base kv.2)),
          ts ++ List.range' (H0.length + 1 + E.length)
            (pools.flatMap (fun kv => poolLabels port base kv.2)).length) := by
  induction pools with
  | nil => intro E ts; simp
  | cons kv pools ih =>
    intro E ts
    rw [List.foldl_cons, modelPool_eq, ih]
    refine Prod.ext ?_ ?_
    · simp [List.flatMap_cons]
    · simp only [List.flatMap_cons, List.length_append, List.append_assoc]
      rw [← Nat.add_assoc, range'_append_range']

theorem entryLabels_base (port : String) (s : Server) (id : String) (pool : Nat)
    (addr : String) :
    entryLabels port
      (setLabel [ (huaweicloudLabelInstanceID, s.ID),
        (huaweicloudLabelInstanceStatus, s.Status),
        (huaweicloudLabelInstanceName, s.Name),
        (huaweicloudLabelProjectID, s.TenantID),
        (huaweicloudLabelUserID, s.UserID)] huaweicloudLabelInstanceFlavor id) pool addr =
      targetLabels port s id pool addr := by
  simp [entryLabels, targetLabels, setLabel, huaweicloudLabelInstanceID,
    huaweicloudLabelInstanceStatus, huaweicloudLabelInstanceName, huaweicloudLabelProjectID,
    huaweicloudLabelUserID, huaweicloudLabelInstanceFlavor, huaweicloudLabelAddressPool,
    huaweicloudLabelPrivateIP, AddressLabel, huaweicloudLabelPrefix, MetaLabelPrefix]

theorem poolLabels_flatMap (port : String) (s : Server) (id : String) :
    s.Addresses.flatMap (fun kv => poolLabels port
      (setLabel [ (huaweicloudLabelInstanceID, s.ID),
        (huaweicloudLabelInstanceStatus, s.Status),
        (huaweicloudLabelInstanceName, s.Name),
        (huaweicloudLabelProjectID, s.TenantID),
        (huaweicloudLabelUserID, s.UserID)] huaweicloudLabelInstanceFlavor id) kv.2) =
      (serverEntries s).map (fun e => targetLabels port s id e.2.1 e.2.2) := by
  unfold serverEntries
  rw [List.map_flatMap]
  congr 1
  funext kv
  unfold poolLabels
  cases asArray kv.2 with
  | none => rfl
  | some md => simp [List.map_map, Function.comp_def, entryLabels_base]

/-- One iteration of the server loop of `getModelLabelsTags`: the heap grows by
the base map and one map per well-formed entry, older maps stay as they are. -/
theorem modelServer_eq (port : String) (H : LabelHeap) (ts : List Nat) (s : Server) :
    ∃ b : LabelSet, modelServer port (H, ts) s =
      (H ++ b :: serverTargets port s,
        ts ++ List.range' (H.length + 1) (serverTargets port s).length) := by
  unfold modelServer serverTargets
  cases hid : asString (mapIndex s.Flavor "id") with
  | none =>
    exact ⟨[ (huaweicloudLabelInstanceID, s.ID),
        (huaweicloudLabelInstanceStatus, s.Status),
        (huaweicloudLabelInstanceName, s.Name),
        (huaweicloudLabelProjectID, s.TenantID),
        (huaweicloudLabelUserID, s.UserID)], by simp⟩
  | some id =>
    refine ⟨setLabel [ (huaweicloudLabelInstanceID, s.ID),
        (huaweicloudLabelInstanceStatus, s.Status),
        (huaweicloudLabelInstanceName, s.Name),
        (huaweicloudLabelProjectID, s.TenantID),
        (huaweicloudLabelUserID, s.UserID)] huaweicloudLabelInstanceFlavor id, ?_⟩
    simp only [writeLabel_last]
    have := modelPools_eq port H (setLabel [ (huaweicloudLabelInstanceID, s.ID),
        (huaweicloudLabelInstanceStatus, s.Status),
        (huaweicloudLabelInstanceName, s.Name),
        (huaweicloudLabelProjectID, s.TenantID),
        (huaweicloudLabelUserID, s.UserID)] huaweicloudLabelInstanceFlavor id) s.Addresses [] ts
    rw [poolLabels_flatMap] at this
    simpa using this

theorem map_readLabels_range' (H : LabelHeap) (M : List LabelSet) :
    ∀ A : LabelHeap, (List.range' A.length M.length).map (readLabels (A ++ M ++ H)) = M := by
  induction M with
  | nil => intro A; simp
  | cons m M ih =>
    intro A
    rw [List.length_cons, List.range'_succ, List.map_cons]
    have h1 : readLabels (A ++ m :: M ++ H) A.length = m := by
      rw [List.append_assoc, List.cons_append, readLabels_append_length]
    have h2 := ih (A ++ [m])
    rw [List.length_append, List.length_singleton] at h2
    rw [h1]
    congr 1
    simpa using h2

theorem modelFold_eq (port : String) (servers : List Server) :
    ∀ (H : LabelHeap) (ts : List Nat), (∀ t ∈ ts, t < H.length) →
      (∀ t ∈ (servers.foldl (modelServer port) (H, ts)).2,
          t < (servers.foldl (modelServer port) (H, ts)).1.length) ∧
        (servers.foldl (modelServer port) (H, ts)).2.map
            (readLabels (servers.foldl (modelServer port) (H, ts)).1) =
          ts.map (readLabels H) ++ servers.flatMap (serverTargets port) := by
  induction servers with
  | nil => intro H ts hts; exact ⟨hts, by simp⟩
  | cons s servers ih =>
    intro H ts hts
    obtain ⟨b, hb⟩ := modelServer_eq port H ts s
    rw [List.foldl_cons, hb]
    have hvalid : ∀ t ∈ ts ++ List.range' (H.length + 1) (serverTargets port s).length,
        t < (H ++ b :: serverTargets port s).length := by
      intro t ht
      rw [List.length_append, List.length_cons]
      rcases List.mem_append.mp ht with ht | ht
      · have := hts t ht; omega
      · rw [List.mem_range'_1] at ht; omega
    obtain ⟨h1, h2⟩ := ih _ _ hvalid
    refine ⟨h1, ?_⟩
    rw [h2, List.map_append, List.flatMap_cons, ← List.append_assoc]
    congr 1
    congr 1
    · apply List.map_congr_left
      intro t ht
      exact readLabels_append_left H _ t (hts t ht)
    · have := map_readLabels_range' [] (serverTargets port s) (H ++ [b])
      simpa using this

/-- The document of `getModelLabelsTags`: one group, its source the formatted
region, its targets the label sets of all servers in inventory order. -/
theorem getModelLabelsTags_eq (port region : String) (allServers : List Server) :
    (getModelLabelsTags port region allServers).groups.map
        (fun g => (g.Source, g.Labels,
          (getModelLabelsTags port region allServers).targets g)) =
      [(Sprintf ("OS_" ++ region), [], allServers.flatMap (serverTargets port))] := by
  have := (modelFold_eq port allServers [] [] (by simp)).2
  simp only [getModelLabelsTags, ModelResult.targets, List.map_cons, List.map_nil] at this ⊢
  rw [this]
  simp

theorem indexedAddrs_snd (md : List Value) :
    ∀ pool : Nat, (indexedAddrs pool md).map Prod.snd = md.filterMap entryAddr := by
  induction md with
  | nil => intro pool; rfl
  | cons e md ih =>
    intro pool
    cases he : entryAddr e <;> simp [indexedAddrs, List.filterMap_cons, he, ih]

theorem serverEntries_addrs (s : Server) :
    (serverEntries s).map (fun e => e.2.2) = wellFormedAddrs s := by
  unfold serverEntries wellFormedAddrs
  rw [List.map_flatMap]
  congr 1
  funext kv
  unfold poolAddrs
  cases asArray kv.2 with
  | none => rfl
  | some md =>
    simp only [List.map_map]
    rw [← indexedAddrs_snd md 0]
    rfl

theorem serverTargets_length (port : String) (s : Server) :
    (serverTargets port s).length =
      if (asString (mapIndex s.Flavor "id")).isSome then (wellFormedAddrs s).length else 0 := by
  unfold serverTargets
  cases asString (mapIndex s.Flavor "id") with
  | none => rfl
  | some id =>
    rw [← serverEntries_addrs]
    simp

theorem sum_map_ite_filter (l : List Server) (p : Server → Bool) (f : Server → Nat) :
    (l.map (fun s => if p s then f s else 0)).sum = ((l.filter p).map f).sum := by
  induction l with
  | nil => rfl
  | cons s l ih =>
    cases hp : p s <;> simp [List.filter_cons, hp, ih]

theorem targets_of_mem_groups (port region : String) (allServers : List Server) (g : Group)
    (hg : g ∈ (getModelLabelsTags port region allServers).groups) :
    (getModelLabelsTags port region allServers).targets g =
      allServers.flatMap (serverTargets port) := by
  have h := getModelLabelsTags_eq port region allServers
  have hm : (g.Source, g.Labels, (getModelLabelsTags port region allServers).targets g) ∈
      (getModelLabelsTags port region allServers).groups.map
        (fun g => (g.Source, g.Labels,
          (getModelLabelsTags port region allServers).targets g)) :=
    List.mem_map_of_mem _ hg
  rw [h, List.mem_singleton] at hm
  exact (Prod.ext_iff.mp (Prod.ext_iff.mp hm).2).2

theorem targetLabels_spec (port : String) (s : Server) (id : String) (pool : Nat)
    (addr : String) :
    (targetLabels port s id pool addr).map Prod.fst =
        [ huaweicloudLabelInstanceID, huaweicloudLabelInstanceStatus,
          huaweicloudLabelInstanceName, huaweicloudLabelProjectID, huaweicloudLabelUserID,
          huaweicloudLabelInstanceFlavor, huaweicloudLabelAddressPool,
          huaweicloudLabelPrivateIP, AddressLabel ] ∧
      ((targetLabels port s id pool addr).map Prod.fst).Nodup ∧
      (targetLabels port s id pool addr).lookup huaweicloudLabelInstanceID = some s.ID ∧
      (targetLabels port s id pool addr).lookup huaweicloudLabelInstanceStatus = some s.Status ∧
      (targetLabels port s id pool addr).lookup huaweicloudLabelInstanceName = some s.Name ∧
      (targetLabels port s id pool addr).lookup huaweicloudLabelProjectID = some s.TenantID ∧
      (targetLabels port s id pool addr).lookup huaweicloudLabelUserID = some s.UserID ∧
      (targetLabels port s id pool addr).lookup huaweicloudLabelInstanceFlavor = some id ∧
      (targetLabels port s id pool addr).lookup huaweicloudLabelPrivateIP = some addr ∧
      (targetLabels port s id pool addr).lookup AddressLabel = some (joinHostPort addr port) := by
  simp [targetLabels, List.lookup, huaweicloudLabelInstanceID,
    huaweicloudLabelInstanceStatus, huaweicloudLabelInstanceName, huaweicloudLabelProjectID,
    huaweicloudLabelUserID, huaweicloudLabelInstanceFlavor, huaweicloudLabelAddressPool,
    huaweicloudLabelPrivateIP, AddressLabel, huaweicloudLabelPrefix, MetaLabelPrefix]

theorem wrapInt_of_range (x : Int) (h0 : 0 ≤ x) (h1 : x < 2 ^ 63) : wrapInt x = x := by
  unfold wrapInt
  rw [Int.emod_eq_of_lt (by omega) (by omega)]
  omega

/-- From a positive counter `n` the loop ends after exactly `n` more calls. -/
theorem mainLoop_countdown {σ : Type} (work : σ → σ) (times : Int) (ht : 0 < times) :
    ∀ (n : Nat), 0 < n → (n : Int) < 2 ^ 63 → ∀ (fuel : Nat), n ≤ fuel → ∀ (w : σ) (calls : Nat),
      mainLoop work times fuel (n : Int) w calls = some (work^[n] w, calls + n) := by
  intro n
  induction n with
  | zero => intro h; exact absurd h (Nat.lt_irrefl 0)
  | succ k ih =>
    intro _ hmax fuel hfuel w calls
    cases fuel with
    | zero => omega
    | succ fuel =>
      have hw : wrapInt (((k + 1 : Nat) : Int) - 1) = (k : Int) := by
        rw [wrapInt_of_range _ (by push_cast; omega) (by push_cast; omega)]
        push_cast; omega
      unfold mainLoop
      simp only [hw]
      by_cases hk : k = 0
      · subst hk
        simp [ht]
      · have hk0 : ¬ ((k : Int) = 0) := by omega
        simp only [hk0, and_false, if_false]
        rw [ih (Nat.pos_of_ne_zero hk) (by push_cast at hmax ⊢; omega) fuel (by omega)]
        simp only [Function.iterate_succ_apply]
        congr 2
        omega

theorem doPrintf_no_percent (cs : List Char) (h : '%' ∉ cs) : doPrintf 0 cs = cs := by
  induction cs with
  | nil => rfl
  | cons c cs ih =>
    have hc : ¬ c = '%' := fun e => h (by rw [e]; exact List.mem_cons_self _ _)
    have hcs : '%' ∉ cs := fun e => h (List.mem_cons_of_mem _ e)
    simp [doPrintf, hc, ih hcs]

/-- A format without a percent sign is printed as it is. -/
theorem Sprintf_no_percent (format : String) (h : '%' ∉ format.toList) :
    Sprintf format = format := by
  unfold Sprintf
  rw [doPrintf_no_percent _ h]
  cases format
  rfl

/-- With the cycle count `0` the loop is still running after any number of
iterations, whatever the counter `n` is. -/
theorem mainLoop_zero {σ : Type} (work : σ → σ) :
    ∀ (fuel : Nat) (n : Int) (w : σ) (calls : Nat), mainLoop work 0 fuel n w calls = none := by
  intro fuel
  induction fuel with
  | zero => intro n w calls; rfl
  | succ fuel ih =>
    intro n w calls
    unfold mainLoop
    simp [ih]

/-- For a non-empty inventory `getSimpleTags` returns, with a nil error. -/
theorem getSimpleTags_isSome (port : String) (allServers : List Server)
    (hne : allServers ≠ []) :
    ∃ r, getSimpleTags port allServers = some r ∧ r.err = none := by
  cases allServers with
  | nil => exact absurd rfl hne
  | cons s0 rest =>
    exact ⟨⟨((s0 :: rest).foldl (simpleServer port)
      ([{ Targets := [], Labels := { Name := s0.Name } }], [0])).1,
      ((s0 :: rest).foldl (simpleServer port)
      ([{ Targets := [], Labels := { Name := s0.Name } }], [0])).2, none⟩,
      by simp [getSimpleTags], rfl⟩

/-- The targets of every group that `getSimpleTags` returns. -/
theorem getSimpleTags_document_targets (port : String) (allServers : List Server)
    (r : SimpleResult) (hr : getSimpleTags port allServers = some r) :
    ∀ g ∈ r.document, g.Targets =
      (allServers.filter (fun s => decide (s.Name = g.Labels.Name))).flatMap
        (simpleTargets port) := by
  cases allServers with
  | nil => simp [getSimpleTags] at hr
  | cons s0 rest =>
    have inv := SimpleInv.fold port (s0 :: rest) _ _ [] (SimpleInv.init port s0.Name)
    simp only [getSimpleTags, List.getElem?_cons_zero, Option.some.injEq] at hr
    subst hr
    intro g hg
    simp only [SimpleResult.document, List.mem_map] at hg
    obtain ⟨p, hp, rfl⟩ := hg
    have := inv.targets p hp
    simpa using this

/-- The function `work` never panics: `getSimpleTags` is called on a non-empty inventory only. -/
theorem work_isSome (flags : Flags) (env : CycleEnv) (fs : Files) :
    (work flags env fs).isSome = true := by
  unfold work
  cases initClient flags env with
  | some e => rfl
  | none =>
    simp only
    cases hs : env.serversList with
    | error e => rfl
    | ok allServers =>
      simp only
      by_cases hlen : allServers.length = 0
      · simp [hlen]
      · simp only [hlen, if_false]
        cases flags.isHuaweicloudModule with
        | true =>
          simp only [if_true]
          cases (getModelLabelsTags flags.port flags.region allServers).err with
          | some e => rfl
          | none =>
            simp only
            cases env.marshalIndent _ <;> rfl
        | false =>
          simp only [Bool.false_eq_true, if_false]
          have hne : allServers ≠ [] := fun e => hlen (by rw [e]; rfl)
          obtain ⟨r, hr, _⟩ := getSimpleTags_isSome flags.port allServers hne
          rw [hr]
          simp only
          cases env.marshalIndent _ <;> rfl

theorem deref_append_ne (h : PiHeap) (x : PrometheusInfo) (q : Nat) (hq : q ≠ h.length) :
    deref (h ++ [x]) q = deref h q := by
  by_cases hlt : q < h.length
  · exact deref_append_left h x q hlt
  · have hgt : h.length < q := by omega
    unfold deref
    rw [List.getD_eq_getElem?_getD, List.getD_eq_getElem?_getD,
      List.getElem?_eq_none (by simp; omega), List.getElem?_eq_none (by omega)]

theorem deref_fresh (h : PiHeap) (x : PrometheusInfo) (T : List String) (q : Nat) :
    deref (appendTargets (h ++ [x]) h.length T) q =
      if q = h.length then { Targets := x.Targets ++ T, Labels := x.Labels } else deref h q := by
  rw [deref_appendTargets _ _ _ _ (by simp)]
  by_cases hq : q = h.length
  · simp [hq, deref_append_length]
  · simp [hq, deref_append_ne h x q hq]

theorem simpleTargets_perm (port : String) (s t : Server) (h : PoolsReordered s t) :
    (simpleTargets port s).Perm (simpleTargets port t) := by
  unfold simpleTargets wellFormedAddrs
  exact (List.Perm.flatMap_right _ h.2.2.2.2.2.2).map _

/-- One iteration of the server loop of `getSimpleTags` on two records of the
same server keeps the two runs in agreement. -/
theorem SimpleRel.serverStep (port : String) (h1 h2 : PiHeap) (pis1 pis2 : List Nat) (s t : Server)
    (rel : SimpleRel h1 pis1 h2 pis2) (hst : PoolsReordered s t) :
    SimpleRel (simpleServer port (h1, pis1) s).1 (simpleServer port (h1, pis1) s).2
      (simpleServer port (h2, pis2) t).1 (simpleServer port (h2, pis2) t).2 := by
  obtain ⟨hpis, hlen, hvalid, hlab, htar⟩ := rel
  subst hpis
  have hname : s.Name = t.Name := hst.2.2.1
  have hT := simpleTargets_perm port s t hst
  have hfun : (fun pi => decide ((deref h2 pi).Labels.Name = t.Name)) =
      (fun pi => decide ((deref h1 pi).Labels.Name = s.Name)) := by
    funext pi
    rw [hlab pi, hname]
  cases hf : pis1.find? (fun pi => decide ((deref h1 pi).Labels.Name = s.Name)) with
  | some p =>
    have hpm : p ∈ pis1 := List.mem_of_find?_eq_some hf
    have hp1 : p < h1.length := hvalid p hpm
    have hp2 : p < h2.length := hlen ▸ hp1
    rw [simpleServer_found port h1 pis1 s p hf hp1,
      simpleServer_found port h2 pis1 t p (by rw [hfun]; exact hf) hp2]
    refine ⟨rfl, ?_, ?_, ?_, ?_⟩
    · show (appendTargets h1 p _).length = (appendTargets h2 p _).length
      rw [appendTargets_length, appendTargets_length]; exact hlen
    · intro q hq
      show q < (appendTargets h1 p _).length
      rw [appendTargets_length]; exact hvalid q hq
    · intro q
      show (deref (appendTargets h1 p _) q).Labels = (deref (appendTargets h2 p _) q).Labels
      rw [deref_appendTargets _ _ _ _ hp1, deref_appendTargets _ _ _ _ hp2]
      by_cases hq : q = p
      · simp [hq, hlab p]
      · simp [hq, hlab q]
    · intro q
      show (deref (appendTargets h1 p _) q).Targets.Perm (deref (appendTargets h2 p _) q).Targets
      rw [deref_appendTargets _ _ _ _ hp1, deref_appendTargets _ _ _ _ hp2]
      by_cases hq : q = p
      · simp only [hq, if_true]
        exact (htar p).append hT
      · simp only [hq, if_false]
        exact htar q
  | none =>
    rw [simpleServer_fresh port h1 pis1 s hf,
      simpleServer_fresh port h2 pis1 t (by rw [hfun]; exact hf)]
    have hk : (s.Addresses.filter (fun kv => passing kv.2)).length =
        (t.Addresses.filter (fun kv => passing kv.2)).length :=
      (hst.2.2.2.2.2.2.filter _).length_eq
    refine ⟨?_, ?_, ?_, ?_, ?_⟩
    · show pis1 ++ _ = pis1 ++ _
      rw [hk, hlen]
    · show (appendTargets _ _ _).length = (appendTargets _ _ _).length
      rw [appendTargets_length, appendTargets_length]
      simp [hlen]
    · intro q hq
      show q < (appendTargets _ _ _).length
      rw [appendTargets_length, List.length_append, List.length_singleton]
      rcases List.mem_append.mp hq with hq | hq
      · have := hvalid q hq; omega
      · rw [List.mem_replicate] at hq; omega
    · intro q
      show (deref (appendTargets _ _ _) q).Labels = (deref (appendTargets _ _ _) q).Labels
      rw [deref_fresh, deref_fresh, ← hlen]
      by_cases hq : q = h1.length
      · simp [hq, hname]
      · simp [hq, hlab q]
    · intro q
      show (deref (appendTargets _ _ _) q).Targets.Perm (deref (appendTargets _ _ _) q).Targets
      rw [deref_fresh, deref_fresh, ← hlen]
      by_cases hq : q = h1.length
      · simp only [hq, if_true, List.nil_append]
        exact hT
      · simp only [hq, if_false]
        exact htar q

theorem SimpleRel.serverLoop (port : String) (inv1 inv2 : List Server)
    (hinv : List.Forall₂ PoolsReordered inv1 inv2) :
    ∀ (h1 h2 : PiHeap) (pis1 pis2 : List Nat), SimpleRel h1 pis1 h2 pis2 →
      SimpleRel (inv1.foldl (simpleServer port) (h1, pis1)).1
        (inv1.foldl (simpleServer port) (h1, pis1)).2
        (inv2.foldl (simpleServer port) (h2, pis2)).1
        (inv2.foldl (simpleServer port) (h2, pis2)).2 := by
  induction hinv with
  | nil => intro h1 h2 pis1 pis2 rel; exact rel
  | cons hst _ ih =>
    intro h1 h2 pis1 pis2 rel
    rw [List.foldl_cons, List.foldl_cons]
    exact ih _ _ _ _ (SimpleRel.serverStep port h1 h2 pis1 pis2 _ _ rel hst)

/-- One iteration of the server loop of `getSimpleTags` only appends to `pis`
and keeps the name of every object that was allocated before. -/
theorem simpleServer_extends (port : String) (h : PiHeap) (pis : List Nat) (s : Server)
    (hvalid : ∀ p ∈ pis, p < h.length) :
    (∃ ext, (simpleServer port (h, pis) s).2 = pis ++ ext) ∧
      ∀ q, q < h.length →
        (deref (simpleServer port (h, pis) s).1 q).Labels = (deref h q).Labels := by
  cases hf : pis.find? (fun pi => decide ((deref h pi).Labels.Name = s.Name)) with
  | some p =>
    have hp : p < h.length := hvalid p (List.mem_of_find?_eq_some hf)
    rw [simpleServer_found port h pis s p hf hp]
    refine ⟨⟨[], by simp⟩, ?_⟩
    intro q _
    show (deref (appendTargets h p _) q).Labels = _
    rw [deref_appendTargets _ _ _ _ hp]
    by_cases hq : q = p
    · simp [hq]
    · simp [hq]
  | none =>
    rw [simpleServer_fresh port h pis s hf]
    refine ⟨⟨_, rfl⟩, ?_⟩
    intro q hq
    show (deref (appendTargets _ _ _) q).Labels = _
    rw [deref_fresh, if_neg (Nat.ne_of_lt hq)]

/-- The server loop of `getSimpleTags` keeps the first pointer of `pis` first,
and the name behind it. -/
theorem simpleLoop_head (port : String) (servers : List Server) :
    ∀ (h : PiHeap) (pis : List Nat) (done : List Server), SimpleInv port h pis done →
      ∀ (p0 : Nat) (rest : List Nat), pis = p0 :: rest →
        (∃ rest', (servers.foldl (simpleServer port) (h, pis)).2 = p0 :: rest') ∧
          (deref (servers.foldl (simpleServer port) (h, pis)).1 p0).Labels =
            (deref h p0).Labels := by
  induction servers with
  | nil => intro h pis done _ p0 rest hp; exact ⟨⟨rest, hp⟩, rfl⟩
  | cons s servers ih =>
    intro h pis done inv p0 rest hp
    have hext := simpleServer_extends port h pis s inv.valid
    obtain ⟨⟨ext, hext1⟩, hext2⟩ := hext
    have hp0 : p0 < h.length := inv.valid p0 (by rw [hp]; exact List.mem_cons_self _ _)
    have hstep := SimpleInv.step port h pis done s inv
    have := ih _ _ _ hstep p0 (rest ++ ext) (by rw [hext1, hp]; rfl)
    rw [List.foldl_cons]
    refine ⟨this.1, ?_⟩
    rw [this.2, hext2 p0 hp0]

/-- The first group that `getSimpleTags` returns bears the name of the first server. -/
theorem getSimpleTags_head (port : String) (allServers : List Server) (r : SimpleResult)
    (hr : getSimpleTags port allServers = some r) :
    r.document.head?.map (fun g => g.Labels.Name) = allServers.head?.map (fun s => s.Name) := by
  cases allServers with
  | nil => simp [getSimpleTags] at hr
  | cons s0 rest =>
    have hh := simpleLoop_head port (s0 :: rest) _ _ [] (SimpleInv.init port s0.Name) 0 [] rfl
    simp only [getSimpleTags, List.getElem?_cons_zero, Option.some.injEq] at hr
    subst hr
    obtain ⟨⟨rest', h1⟩, h2⟩ := hh
    simp only [SimpleResult.document, h1, List.map_cons, List.head?_cons, Option.map_some',
      h2]
    simp [deref]

/-- A server with a well-formed address has a group of its name in the list
that `getSimpleTags` returns. -/
theorem getSimpleTags_group_of_addrs (port : String) (allServers : List Server)
    (r : SimpleResult) (hr : getSimpleTags port allServers = some r) :
    ∀ s ∈ allServers, wellFormedAddrs s ≠ [] →
      ∃ g ∈ r.document, g.Labels.Name = s.Name := by
  cases allServers with
  | nil => simp [getSimpleTags] at hr
  | cons s0 rest =>
    have inv := SimpleInv.fold port (s0 :: rest) _ _ [] (SimpleInv.init port s0.Name)
    simp only [getSimpleTags, List.getElem?_cons_zero, Option.some.injEq] at hr
    subst hr
    intro s hs hw
    by_contra hno
    have habs := inv.absent s (by simpa using hs) (by
      intro p hp hname
      exact hno ⟨deref _ p, List.mem_map_of_mem _ hp, hname⟩)
    apply hw
    unfold simpleTargets at habs
    exact List.map_eq_nil_iff.mp habs

/-- Two records of the same name: one group, holding the targets of both. -/
theorem getSimpleTags_pair (port : String) (s t : Server) (hst : s.Name = t.Name) :
    (getSimpleTags port [s, t]).map SimpleResult.document =
      some [ { Targets := (wellFormedAddrs s).map (fun addr => joinHostPort addr port) ++
                 (wellFormedAddrs t).map (fun addr => joinHostPort addr port),
               Labels := { Name := s.Name } } ] := by
  have hf : [0].find? (fun pi => decide
      ((deref [{ Targets := [], Labels := { Name := s.Name } }] pi).Labels.Name = s.Name))
      = some 0 := by
    simp [deref]
  have h1 := simpleServer_found port [{ Targets := [], Labels := { Name := s.Name } }] [0] s 0
    hf (by simp)
  have hd : deref (appendTargets [{ Targets := [], Labels := { Name := s.Name } }] 0
      (simpleTargets port s)) 0 = ⟨simpleTargets port s, ⟨s.Name⟩⟩ := by
    rw [deref_appendTargets _ _ _ _ (by simp)]
    simp [deref]
  have hf2 : [0].find? (fun pi => decide
      ((deref (appendTargets [{ Targets := [], Labels := { Name := s.Name } }] 0
        (simpleTargets port s)) pi).Labels.Name = t.Name)) = some 0 := by
    apply List.find?_cons_of_pos
    simp only [hd]
    simp [hst]
  have h2 := simpleServer_found port _ [0] t 0 hf2 (by rw [appendTargets_length]; simp)
  simp only [getSimpleTags, List.getElem?_cons_zero, List.foldl_cons, List.foldl_nil,
    Option.map_some', SimpleResult.document, h1, h2, List.map_cons, List.map_nil]
  rw [deref_appendTargets _ _ _ _ (by rw [appendTargets_length]; simp), if_pos rfl, hd]
  simp [simpleTargets]

theorem flatMap_ite_filter {β : Type} (l : List Server) (p : Server → Bool)
    (f : Server → List β) :
    l.flatMap (fun s => if p s then f s else []) = (l.filter p).flatMap f := by
  induction l with
  | nil => rfl
  | cons s l ih =>
    cases hp : p s <;> simp [List.flatMap_cons, List.filter_cons, hp, ih]

/-- The private-IP and `__address__` labels of the targets of one server. -/
theorem serverTargets_addresses (port : String) (s : Server) :
    (serverTargets port s).map
        (fun t => (t.lookup huaweicloudLabelPrivateIP, t.lookup AddressLabel)) =
      if (asString (mapIndex s.Flavor "id")).isSome then
        (wellFormedAddrs s).map (fun a => (some a, some (joinHostPort a port)))
      else [] := by
  unfold serverTargets
  cases asString (mapIndex s.Flavor "id") with
  | none => rfl
  | some id =>
    rw [← serverEntries_addrs]
    simp only [List.map_map, Option.isSome_some, if_true]
    apply List.map_congr_left
    intro e _
    have h := targetLabels_spec port s id e.2.1 e.2.2
    simp only [Function.comp]
    rw [h.2.2.2.2.2.2.2.2.1, h.2.2.2.2.2.2.2.2.2]

/-! ## The claims -/

/-- C1 (code defect): for the inventory `a`, `b` where `b` has two non-empty pools,
`getSimpleTags` returns three groups, the group `b` at two distinct positions:
the `append` to `pis` sits inside the loop over the pools. -/
theorem getSimpleTags_duplicate_name :
    (getSimpleTags "9100" inventoryTwoPools).map SimpleResult.document =
      some [ { Targets := [], Labels := { Name := "a" } },
             { Targets := ["10.0.0.1:9100", "10.0.0.2:9100"], Labels := { Name := "b" } },
             { Targets := ["10.0.0.1:9100", "10.0.0.2:9100"], Labels := { Name := "b" } } ] := by
  decide

/-- C2 (code defect): for the inventory `a`, `b` where the only pool of `b` is
empty, `getSimpleTags` returns the group `a` alone; no group is named `b`. -/
theorem getSimpleTags_missing_group :
    (getSimpleTags "9100" inventoryEmptyPool).map SimpleResult.document =
      some [ { Targets := ["10.0.0.1:9100"], Labels := { Name := "a" } } ] := by
  decide

/-- C3: for a non-empty inventory `getSimpleTags` returns; the targets of every
group of the returned list are the concatenation, over the servers that bear the
name of the group, in inventory order, of `net.JoinHostPort(addr, port)` for the
well-formed address entries of the server; the first group bears the name of
the first server, and every server with a well-formed address has a group of
its name, which therefore holds its addresses.  Two records of the same name
yield one group holding the addresses of both. -/
theorem getSimpleTags_targets (port : String) (allServers : List Server)
    (hne : allServers ≠ []) :
    ∃ r, getSimpleTags port allServers = some r ∧
      (∀ g ∈ r.document, g.Targets =
        (allServers.filter (fun s => decide (s.Name = g.Labels.Name))).flatMap
          (fun s => (wellFormedAddrs s).map (fun addr => joinHostPort addr port))) ∧
      r.document.head?.map (fun g => g.Labels.Name) =
        allServers.head?.map (fun s => s.Name) ∧
      (∀ s ∈ allServers, wellFormedAddrs s ≠ [] →
        ∃ g ∈ r.document, g.Labels.Name = s.Name) ∧
      (∀ s t : Server, s.Name = t.Name →
        (getSimpleTags port [s, t]).map SimpleResult.document =
          some [ { Targets := (wellFormedAddrs s).map (fun addr => joinHostPort addr port) ++
                     (wellFormedAddrs t).map (fun addr => joinHostPort addr port),
                   Labels := { Name := s.Name } } ]) := by
  obtain ⟨r, hr, _⟩ := getSimpleTags_isSome port allServers hne
  refine ⟨r, hr, ?_, getSimpleTags_head port allServers r hr,
    getSimpleTags_group_of_addrs port allServers r hr, getSimpleTags_pair port⟩
  intro g hg
  have := getSimpleTags_document_targets port allServers r hr g hg
  simpa [simpleTargets] using this

/-- C3 at two records named `a`: the document is one group `a` with the
addresses of both records. -/
theorem getSimpleTags_targets_witness :
    (∃ r, getSimpleTags "9100" inventorySameName = some r ∧
      (∀ g ∈ r.document, g.Targets =
        (inventorySameName.filter (fun s => decide (s.Name = g.Labels.Name))).flatMap
          (fun s => (wellFormedAddrs s).map (fun addr => joinHostPort addr "9100"))) ∧
      r.document.head?.map (fun g => g.Labels.Name) =
        inventorySameName.head?.map (fun s => s.Name) ∧
      (∀ s ∈ inventorySameName, wellFormedAddrs s ≠ [] →
        ∃ g ∈ r.document, g.Labels.Name = s.Name) ∧
      (∀ s t : Server, s.Name = t.Name →
        (getSimpleTags "9100" [s, t]).map SimpleResult.document =
          some [ { Targets := (wellFormedAddrs s).map (fun addr => joinHostPort addr "9100") ++
                     (wellFormedAddrs t).map (fun addr => joinHostPort addr "9100"),
                   Labels := { Name := s.Name } } ])) ∧
    (getSimpleTags "9100" inventorySameName).map SimpleResult.document =
      some [ { Targets := ["10.0.0.1:9100", "10.0.0.2:9100"], Labels := { Name := "a" } } ] :=
  ⟨getSimpleTags_targets "9100" inventorySameName (List.cons_ne_nil _ _), by decide⟩

/-- C4: the number of targets of the single group that `getModelLabelsTags`
returns is the sum, over the servers whose flavor `id` is a string, of the number
of well-formed address entries of the server. -/
theorem getModelLabelsTags_count (port region : String) (allServers : List Server) :
    (getModelLabelsTags port region allServers).groups.map (fun g => g.Targets.length) =
      [ ((allServers.filter (fun s => (asString (mapIndex s.Flavor "id")).isSome)).map
          (fun s => (wellFormedAddrs s).length)).sum ] := by
  have h := getModelLabelsTags_eq port region allServers
  have hlen : (getModelLabelsTags port region allServers).groups.map (fun g => g.Targets.length)
      = ((getModelLabelsTags port region allServers).groups.map
        (fun g => (g.Source, g.Labels,
          (getModelLabelsTags port region allServers).targets g))).map
        (fun x => x.2.2.length) := by
    simp [ModelResult.targets, Function.comp_def]
  rw [hlen, h]
  simp only [List.map_cons, List.map_nil, List.length_flatMap, Function.comp_def,
    serverTargets_length]
  rw [sum_map_ite_filter]

/-- C5: a server whose flavor mapping has no `id`, or an `id` that is not a
string, contributes nothing in model mode: the group returned for the inventory
is the group returned for the inventory without that server (same source, same
targets in the same order). -/
theorem getModelLabelsTags_skip_flavor (port region : String) (pre post : List Server)
    (s : Server) (h : asString (mapIndex s.Flavor "id") = none) :
    (getModelLabelsTags port region (pre ++ s :: post)).groups.map
        (fun g => (g.Source, g.Labels,
          (getModelLabelsTags port region (pre ++ s :: post)).targets g)) =
      (getModelLabelsTags port region (pre ++ post)).groups.map
        (fun g => (g.Source, g.Labels,
          (getModelLabelsTags port region (pre ++ post)).targets g)) := by
  rw [getModelLabelsTags_eq, getModelLabelsTags_eq]
  have hs : serverTargets port s = [] := by
    unfold serverTargets; rw [h]
  simp [List.flatMap_append, List.flatMap_cons, hs]

/-- C5 at the inventory `serverNoFlavor`, `serverPublic`. -/
theorem getModelLabelsTags_skip_flavor_witness :
    asString (mapIndex serverNoFlavor.Flavor "id") = none ∧
    (getModelLabelsTags "9100" "cn-north-1" ([] ++ serverNoFlavor :: [serverPublic])).groups.map
        (fun g => (g.Source, g.Labels,
          (getModelLabelsTags "9100" "cn-north-1"
            ([] ++ serverNoFlavor :: [serverPublic])).targets g)) =
      (getModelLabelsTags "9100" "cn-north-1" ([] ++ [serverPublic])).groups.map
        (fun g => (g.Source, g.Labels,
          (getModelLabelsTags "9100" "cn-north-1" ([] ++ [serverPublic])).targets g)) :=
  ⟨rfl, getModelLabelsTags_skip_flavor "9100" "cn-north-1" [] [serverPublic] serverNoFlavor rfl⟩

/-- C6 (code defect): for one server whose pool `public` holds one address, the
address-pool label of the target is the one-character string with code point 0,
the index of the entry in the pool converted to a string, not `public`. -/
theorem getModelLabelsTags_address_pool_label :
    (getModelLabelsTags "9100" "cn-north-1" [serverPublic]).groups.map
        (fun g => ((getModelLabelsTags "9100" "cn-north-1" [serverPublic]).targets g).map
          (fun t => t.lookup huaweicloudLabelAddressPool)) =
      [[some (String.singleton (Char.ofNat 0))]] := by
  decide

/-- C7: the targets that `getModelLabelsTags` emits are, read in the final state
and in order, one label set for every server `s` with a string flavor id and
every well-formed address entry of `s` (the addresses of the entries are the
well-formed addresses of `s`): the nine labels instance id, status, name, project
id, user id, flavor, address pool, private IP and `__address__`, where the first
five are the fields of `s`, the flavor is `s.Flavor["id"]`, the private IP is the
raw address and `__address__` is `net.JoinHostPort` of the address and the port.
So no target is altered by the targets emitted after it, and the targets
emitted for an inventory stay as they are when more servers follow. -/
theorem getModelLabelsTags_labels (port region : String) (allServers : List Server) :
    (getModelLabelsTags port region allServers).groups.map
        (fun g => (getModelLabelsTags port region allServers).targets g) =
      [ allServers.flatMap (fun s =>
          match asString (mapIndex s.Flavor "id") with
          | none => []
          | some id => (serverEntries s).map (fun e =>
              [ (huaweicloudLabelInstanceID, s.ID),
                (huaweicloudLabelInstanceStatus, s.Status),
                (huaweicloudLabelInstanceName, s.Name),
                (huaweicloudLabelProjectID, s.TenantID),
                (huaweicloudLabelUserID, s.UserID),
                (huaweicloudLabelInstanceFlavor, id),
                (huaweicloudLabelAddressPool, intToString e.2.1),
                (huaweicloudLabelPrivateIP, e.2.2),
                (AddressLabel, joinHostPort e.2.2 port) ])) ] ∧
    (∀ s : Server, (serverEntries s).map (fun e => e.2.2) = wellFormedAddrs s) ∧
    (∀ g ∈ (getModelLabelsTags port region allServers).groups,
      ∀ t ∈ (getModelLabelsTags port region allServers).targets g,
        ∃ s ∈ allServers, ∃ id : String, ∃ e ∈ serverEntries s,
          asString (mapIndex s.Flavor "id") = some id ∧
          t.map Prod.fst =
            [ huaweicloudLabelInstanceID, huaweicloudLabelInstanceStatus,
              huaweicloudLabelInstanceName, huaweicloudLabelProjectID, huaweicloudLabelUserID,
              huaweicloudLabelInstanceFlavor, huaweicloudLabelAddressPool,
              huaweicloudLabelPrivateIP, AddressLabel ] ∧
          (t.map Prod.fst).Nodup ∧
          t.lookup huaweicloudLabelInstanceID = some s.ID ∧
          t.lookup huaweicloudLabelInstanceStatus = some s.Status ∧
          t.lookup huaweicloudLabelInstanceName = some s.Name ∧
          t.lookup huaweicloudLabelProjectID = some s.TenantID ∧
          t.lookup huaweicloudLabelUserID = some s.UserID ∧
          t.lookup huaweicloudLabelInstanceFlavor = some id ∧
          t.lookup huaweicloudLabelPrivateIP = some e.2.2 ∧
          t.lookup AddressLabel = some (joinHostPort e.2.2 port)) ∧
    (∀ post : List Server,
      ∀ g ∈ (getModelLabelsTags port region allServers).groups,
        ∀ g' ∈ (getModelLabelsTags port region (allServers ++ post)).groups,
          (getModelLabelsTags port region allServers).targets g <+:
            (getModelLabelsTags port region (allServers ++ post)).targets g') := by
  refine ⟨?_, serverEntries_addrs, ?_, ?_⟩
  · have h := getModelLabelsTags_eq port region allServers
    have hmap : (getModelLabelsTags port region allServers).groups.map
        (fun g => (getModelLabelsTags port region allServers).targets g) =
        ((getModelLabelsTags port region allServers).groups.map
          (fun g => (g.Source, g.Labels,
            (getModelLabelsTags port region allServers).targets g))).map (fun x => x.2.2) := by
      simp [List.map_map, Function.comp_def]
    rw [hmap, h]
    simp only [List.map_cons, List.map_nil]
    congr 2
  · intro g hg t ht
    rw [targets_of_mem_groups port region allServers g hg, List.mem_flatMap] at ht
    obtain ⟨s, hs, hts⟩ := ht
    unfold serverTargets at hts
    cases hid : asString (mapIndex s.Flavor "id") with
    | none => rw [hid] at hts; simp at hts
    | some id =>
      rw [hid] at hts
      simp only [List.mem_map] at hts
      obtain ⟨e, he, rfl⟩ := hts
      exact ⟨s, hs, id, e, he, hid, targetLabels_spec port s id e.2.1 e.2.2⟩
  · intro post g hg g' hg'
    rw [targets_of_mem_groups port region allServers g hg,
      targets_of_mem_groups port region (allServers ++ post) g' hg', List.flatMap_append]
    exact List.prefix_append _ _

/-- C8: for an inventory of exactly one server `getSimpleTags` returns exactly
one group, named after the server, whose targets are the host:port strings of
the well-formed address entries of the server; the scenario of the spec follows. -/
theorem getSimpleTags_single (port : String) (s : Server) :
    (getSimpleTags port [s]).map SimpleResult.document =
        some [ { Targets := (wellFormedAddrs s).map (fun addr => joinHostPort addr port),
                 Labels := { Name := s.Name } } ] ∧
      (getSimpleTags "9100"
          [ { ID := "1", Status := "ACTIVE", Name := "a", TenantID := "t", UserID := "u",
              Flavor := [],
              Addresses := [("public", Value.arr [Value.obj [("addr", Value.str "10.0.0.1")]])]
            } ]).map SimpleResult.document =
        some [ { Targets := ["10.0.0.1:9100"], Labels := { Name := "a" } } ] := by
  refine ⟨?_, by decide⟩
  have hf : [0].find? (fun pi => decide
      ((deref [{ Targets := [], Labels := { Name := s.Name } }] pi).Labels.Name = s.Name))
      = some 0 := by
    simp [deref]
  have hstep := simpleServer_found port [{ Targets := [], Labels := { Name := s.Name } }] [0] s 0
    hf (by simp)
  simp only [getSimpleTags, List.getElem?_cons_zero, List.foldl_cons, List.foldl_nil,
    Option.map_some', SimpleResult.document, hstep, List.map_cons, List.map_nil]
  rw [deref_appendTargets _ _ _ _ (by simp)]
  simp [deref, simpleTargets]

/-- C9 (code defect): the region is used as a format string.  For the region
`%%` the source of the group is `OS_%`, not `OS_%%`. -/
theorem getModelLabelsTags_source_percent :
    (getModelLabelsTags "9100" "%%" [serverPublic]).groups.map (fun g => g.Source) =
      ["OS_%"] := by
  decide

/-- C10: for a configured cycle count `N > 0` the scheduling loop of `main`
calls `work()` exactly `N` times and then exits, whatever the calls do to the
state of the world: any bound of at least `N` iterations sees the loop end,
after `N` calls, in the state that `N` calls of `work` leave. -/
theorem mainLoop_exits_after_times {σ : Type} (work : σ → σ) (N : Nat) (hN : 0 < N)
    (hmax : (N : Int) < 2 ^ 63) (w : σ) (fuel : Nat) (hfuel : N ≤ fuel) :
    mainLoop work (N : Int) fuel (N : Int) w 0 = some (work^[N] w, N) := by
  have := mainLoop_countdown work (N : Int) (by exact_mod_cast hN) N hN hmax fuel hfuel w 0
  simpa using this

/-- C10 at three cycles of a `work` that never writes. -/
theorem mainLoop_exits_after_times_witness :
    mainLoop (fun w : Option String => w) ((3 : Nat) : Int) 5 ((3 : Nat) : Int) none 0 =
      some ((fun w : Option String => w)^[3] none, 3) :=
  mainLoop_exits_after_times (fun w : Option String => w) 3 (by decide) (by decide) none 5
    (by decide)

/-- C11: with the cycle count `0` the scheduling loop of `main` never exits: it
is still running after any number of iterations; the exit condition
`*times > 0 && n == 0` is false for every value of the counter, and the counter
is negative from the first call on (`-1` after it). -/
theorem mainLoop_runs_forever {σ : Type} (work : σ → σ) (w : σ) :
    (∀ fuel : Nat, mainLoop work 0 fuel 0 w 0 = none) ∧
      (∀ n : Int, ¬ ((0 : Int) > 0 ∧ wrapInt (n - 1) = 0)) ∧
      wrapInt (0 - 1) = -1 := by
  refine ⟨fun fuel => mainLoop_zero work fuel 0 w 0, ?_, by decide⟩
  intro n h
  exact absurd h.1 (by decide)

/-- C12: a call of `work` in which the set-up of the client or the fetch of the
inventory fails, or in which the inventory is empty, returns with the files as
they were: nothing is written. -/
theorem work_no_write (flags : Flags) (env : CycleEnv) (fs : Files)
    (h : (initClient flags env).isSome = true ∨ (∃ e, env.serversList = Except.error e) ∨
      env.serversList = Except.ok []) :
    work flags env fs = some fs := by
  unfold work
  cases hc : initClient flags env with
  | some e => rfl
  | none =>
    rw [hc] at h
    simp only
    rcases h with h | ⟨e, h⟩ | h
    · simp at h
    · rw [h]
    · rw [h]; rfl

/-- C12 at flags without credentials, where `buildClient` fails. -/
theorem work_no_write_witness :
    (initClient flagsNoCredentials envAllGood).isSome = true ∧
      work flagsNoCredentials envAllGood (fun _ => none) = some (fun _ => none) :=
  ⟨by decide, work_no_write flagsNoCredentials envAllGood (fun _ => none) (Or.inl (by decide))⟩

/-- C13: in both modes the host:port string of a well-formed address `a` is
`a ++ ":" ++ p` when `a` has no colon and `"[" ++ a ++ "]:" ++ p` when it has one.
Simple mode: for every well-formed address of every server of a non-empty
inventory that string is among the targets of the group named after the server,
and every target is such a string.  Model mode: the private-IP and `__address__`
labels of the emitted targets are, in order, the well-formed addresses of the
servers with a string flavor id and that string.  An IPv4 and an IPv6 address
of one server are evaluated in both modes. -/
theorem joinHostPort_emitted (port : String) :
    (∀ allServers : List Server, allServers ≠ [] →
      ∃ r, getSimpleTags port allServers = some r ∧
        ∀ s ∈ allServers, ∀ a ∈ wellFormedAddrs s,
          ∃ g ∈ r.document, g.Labels.Name = s.Name ∧
            (if ':' ∈ a.toList then "[" ++ a ++ "]:" ++ port else a ++ ":" ++ port) ∈
              g.Targets) ∧
    (∀ (allServers : List Server) (r : SimpleResult),
      getSimpleTags port allServers = some r →
        ∀ g ∈ r.document, ∀ t ∈ g.Targets, ∃ s ∈ allServers, ∃ a ∈ wellFormedAddrs s,
          t = if ':' ∈ a.toList then "[" ++ a ++ "]:" ++ port else a ++ ":" ++ port) ∧
    (∀ (region : String) (allServers : List Server),
      (getModelLabelsTags port region allServers).groups.map
          (fun g => ((getModelLabelsTags port region allServers).targets g).map
            (fun t => (t.lookup huaweicloudLabelPrivateIP, t.lookup AddressLabel))) =
        [ (allServers.filter (fun s => (asString (mapIndex s.Flavor "id")).isSome)).flatMap
            (fun s => (wellFormedAddrs s).map (fun a =>
              (some a, some (if ':' ∈ a.toList then "[" ++ a ++ "]:" ++ port
                else a ++ ":" ++ port)))) ]) ∧
    (getSimpleTags "9100" [serverTwoFamilies]).map SimpleResult.document =
      some [ { Targets := ["10.0.0.1:9100", "[fe80::1]:9100"], Labels := { Name := "a" } } ] ∧
    (getModelLabelsTags "9100" "cn-north-1" [serverTwoFamilies]).groups.map
        (fun g => ((getModelLabelsTags "9100" "cn-north-1" [serverTwoFamilies]).targets g).map
          (fun t => t.lookup AddressLabel)) =
      [[some "10.0.0.1:9100", some "[fe80::1]:9100"]] := by
  refine ⟨?_, ?_, ?_, by decide, by decide⟩
  · intro allServers hne
    obtain ⟨r, hr, _⟩ := getSimpleTags_isSome port allServers hne
    refine ⟨r, hr, ?_⟩
    intro s hs a ha
    obtain ⟨g, hg, hname⟩ := getSimpleTags_group_of_addrs port allServers r hr s hs
      (List.ne_nil_of_mem ha)
    refine ⟨g, hg, hname, ?_⟩
    rw [getSimpleTags_document_targets port allServers r hr g hg, List.mem_flatMap]
    refine ⟨s, List.mem_filter.mpr ⟨hs, by simp [hname]⟩, ?_⟩
    exact List.mem_map_of_mem (fun a => joinHostPort a port) ha
  · intro allServers r hr g hg t ht
    rw [getSimpleTags_document_targets port allServers r hr g hg, List.mem_flatMap] at ht
    obtain ⟨s, hs, hts⟩ := ht
    simp only [simpleTargets, List.mem_map] at hts
    obtain ⟨a, ha, rfl⟩ := hts
    exact ⟨s, (List.mem_filter.mp hs).1, a, ha, rfl⟩
  · intro region allServers
    have h := getModelLabelsTags_eq port region allServers
    have hmap : (getModelLabelsTags port region allServers).groups.map
        (fun g => ((getModelLabelsTags port region allServers).targets g).map
          (fun t => (t.lookup huaweicloudLabelPrivateIP, t.lookup AddressLabel))) =
        ((getModelLabelsTags port region allServers).groups.map
          (fun g => (g.Source, g.Labels,
            (getModelLabelsTags port region allServers).targets g))).map
          (fun x => x.2.2.map
            (fun t => (t.lookup huaweicloudLabelPrivateIP, t.lookup AddressLabel))) := by
      simp [List.map_map, Function.comp_def]
    rw [hmap, h]
    simp only [List.map_cons, List.map_nil, List.map_flatMap, serverTargets_addresses]
    rw [flatMap_ite_filter]
    rfl

/-- C14 (code defect): for the inventory `a`, `b` without pools, `c`, `b` the
groups come out in the order `a`, `c`, `b`, although `b` first occurs before `c`:
the group of the first `b` is never appended to `pis`. -/
theorem getSimpleTags_order_late_group :
    (getSimpleTags "9100" inventoryLateGroup).map SimpleResult.document =
      some [ { Targets := ["10.0.0.1:9100"], Labels := { Name := "a" } },
             { Targets := ["10.0.0.3:9100"], Labels := { Name := "c" } },
             { Targets := ["10.0.0.2:9100"], Labels := { Name := "b" } } ] := by
  decide

/-- C15: for a non-empty inventory, whatever the shapes of the flavor and address
data, `getSimpleTags` and `getModelLabelsTags` return a document and a nil error,
and `work` never panics: it returns before `getSimpleTags` when the inventory
is empty, so `allServers[0]` is in range. -/
theorem transformations_return (port region : String) (allServers : List Server)
    (hne : allServers ≠ []) :
    (∃ r, getSimpleTags port allServers = some r ∧ r.err = none) ∧
      (getModelLabelsTags port region allServers).err = none ∧
      (∀ (flags : Flags) (env : CycleEnv) (fs : Files), (work flags env fs).isSome = true) ∧
      (∀ (flags : Flags) (env : CycleEnv) (fs : Files),
        env.serversList = Except.ok [] → work flags env fs = some fs) := by
  refine ⟨getSimpleTags_isSome port allServers hne, rfl, work_isSome, ?_⟩
  intro flags env fs h
  unfold work
  cases initClient flags env with
  | some e => rfl
  | none => simp only; rw [h]; rfl

/-- C15 at an inventory whose only server has every malformed shape. -/
theorem transformations_return_witness :
    (∃ r, getSimpleTags "9100" [serverMalformed] = some r ∧ r.err = none) ∧
      (getModelLabelsTags "9100" "cn-north-1" [serverMalformed]).err = none ∧
      (∀ (flags : Flags) (env : CycleEnv) (fs : Files), (work flags env fs).isSome = true) ∧
      (∀ (flags : Flags) (env : CycleEnv) (fs : Files),
        env.serversList = Except.ok [] → work flags env fs = some fs) :=
  transformations_return "9100" "cn-north-1" [serverMalformed] (List.cons_ne_nil _ _)

/-- C16: `checkConfigOptions` returns an error exactly when one of `region`,
`projectName`, `domain`, `userName` is empty; flags that agree on these four
give the same result; and when it returns an error `main` returns without a
call of `work`. -/
theorem checkConfigOptions_iff (flags : Flags) :
    ((checkConfigOptions flags).isSome = true ↔
      (flags.region = "" ∨ flags.projectName = "" ∨ flags.domain = "" ∨ flags.userName = "")) ∧
    (∀ other : Flags, other.region = flags.region → other.projectName = flags.projectName →
      other.domain = flags.domain → other.userName = flags.userName →
        checkConfigOptions other = checkConfigOptions flags) ∧
    (∀ (σ : Type) (work : σ → σ) (fuel : Nat) (w : σ), (checkConfigOptions flags).isSome = true →
      main flags work fuel w = Except.ok (some (w, 0))) := by
  refine ⟨?_, ?_, ?_⟩
  · unfold checkConfigOptions
    by_cases h1 : flags.region = "" <;> by_cases h2 : flags.projectName = "" <;>
      by_cases h3 : flags.domain = "" <;> by_cases h4 : flags.userName = "" <;>
      simp [h1, h2, h3, h4]
  · intro other h1 h2 h3 h4
    unfold checkConfigOptions
    rw [h1, h2, h3, h4]
  · intro σ work fuel w h
    unfold main
    cases hc : checkConfigOptions flags with
    | none => rw [hc] at h; simp at h
    | some e => rfl

/-- C17: the result of `getSimpleTags` depends on the order in which the pools of
each server are visited through the order of the targets only: for a non-empty
inventory and two visiting orders, both runs return, the two lists have the same
length and the same sequence of group names, and the targets of the groups at
the same position are permutations of each other. -/
theorem getSimpleTags_pool_order (port : String) (inv1 inv2 : List Server) (hne : inv1 ≠ [])
    (hinv : List.Forall₂ PoolsReordered inv1 inv2) :
    ∃ r1 r2, getSimpleTags port inv1 = some r1 ∧ getSimpleTags port inv2 = some r2 ∧
      r1.document.length = r2.document.length ∧
      r1.document.map (fun g => g.Labels.Name) = r2.document.map (fun g => g.Labels.Name) ∧
      List.Forall₂ (fun g1 g2 => g1.Targets.Perm g2.Targets) r1.document r2.document := by
  cases hinv with
  | nil => exact absurd rfl hne
  | @cons s0 t0 rest1 rest2 h0 hrest =>
    have hname : s0.Name = t0.Name := h0.2.2.1
    have init : SimpleRel [{ Targets := [], Labels := { Name := s0.Name } }] [0]
        [{ Targets := [], Labels := { Name := t0.Name } }] [0] := by
      rw [hname]
      exact ⟨rfl, rfl, by intro p hp; simp at hp; simp [hp], fun _ => rfl,
        fun _ => List.Perm.refl _⟩
    have rel := SimpleRel.serverLoop port (s0 :: rest1) (t0 :: rest2) (List.Forall₂.cons h0 hrest)
      _ _ _ _ init
    generalize hA : List.foldl (simpleServer port)
      ([{ Targets := [], Labels := { Name := s0.Name } }], [0]) (s0 :: rest1) = A at rel
    generalize hB : List.foldl (simpleServer port)
      ([{ Targets := [], Labels := { Name := t0.Name } }], [0]) (t0 :: rest2) = B at rel
    refine ⟨⟨A.1, A.2, none⟩, ⟨B.1, B.2, none⟩, by rw [← hA]; simp [getSimpleTags],
      by rw [← hB]; simp [getSimpleTags], ?_, ?_, ?_⟩
    · simp only [SimpleResult.document, List.length_map]
      rw [rel.pis]
    · simp only [SimpleResult.document, List.map_map]
      rw [rel.pis]
      apply List.map_congr_left
      intro q _
      simp only [Function.comp]
      rw [rel.labels q]
    · simp only [SimpleResult.document]
      rw [rel.pis, List.forall₂_map_left_iff, List.forall₂_map_right_iff, List.forall₂_same]
      intro q _
      exact rel.targets q

/-- C17 at the inventory `a`, `b` with the two pools of `b` visited in either order. -/
theorem getSimpleTags_pool_order_witness :
    ∃ r1 r2, getSimpleTags "9100" inventoryTwoPools = some r1 ∧
      getSimpleTags "9100" inventoryTwoPoolsSwapped = some r2 ∧
      r1.document.length = r2.document.length ∧
      r1.document.map (fun g => g.Labels.Name) = r2.document.map (fun g => g.Labels.Name) ∧
      List.Forall₂ (fun g1 g2 => g1.Targets.Perm g2.Targets) r1.document r2.document :=
  getSimpleTags_pool_order "9100" inventoryTwoPools inventoryTwoPoolsSwapped
    (List.cons_ne_nil _ _)
    (List.Forall₂.cons ⟨rfl, rfl, rfl, rfl, rfl, rfl, List.Perm.refl _⟩
      (List.Forall₂.cons ⟨rfl, rfl, rfl, rfl, rfl, rfl, List.Perm.swap _ _ _⟩ List.Forall₂.nil))

end Discovery
